import Mathlib

/-!
# Armadillo: rank estimation, SPD inversion, option flags, sparse nonzeros

A shallow embedding of

* `include/armadillo_bits/fn_rank.hpp` (`rank_diagmat`, `rank_sym`, `rank`),
* `include/armadillo_bits/op_inv_gen_bones.hpp` (`inv_opts`),
* `include/armadillo_bits/op_inv_spd_meat.hpp` (`op_inv_spd`, `op_inv_spd_default`),
* `include/armadillo_bits/op_inv_rcond_meat.hpp` (`op_inv_rcond`),
* `include/armadillo_bits/op_sp_nonzeros_meat.hpp` (`op_sp_nonzeros`).

Conventions of the embedding.

* The pod type `T` is `ℚ`: arithmetic is exact, and the machine epsilon
  `std::numeric_limits<T>::epsilon()` is a parameter `eps`. The functions of
  `fn_rank.hpp` are embedded a second time, in the namespace `Pod`, for an
  arbitrary pod type whose products and comparisons are parameters
  (`PodOps`); at exact arithmetic the two embeddings coincide
  (`exact_pod_rank`).
* The element type `eT` is a type parameter; what the code does with an
  element (`std::abs`, `arma_isnan`, `access::tmp_real`, ...) is collected in
  `ElemOps eT`.
* A dense matrix is its dimensions and its column-major memory. The
  containers `Mat` and `SpMat`, their methods, and a few helpers are not part
  of the embedded files; their definitions here say so.
* `arma_stop_runtime_error` and a failed `arma_debug_check` throw; a function
  that can throw returns `Except Exn _`.
* LAPACK-backed routines and other routines whose bodies are outside the
  embedded files are fields of `Externals`: the general theorems hold for all
  of them, and `refExternals` is a concrete instance for evaluating examples.
-/

namespace Arma

/-! ## Dense matrices -/

/-- Modelled from the spec: the dense matrix container `Mat<eT>` is not among
the source files. It is `n_rows`, `n_cols` and the column-major memory `mem`,
where element `(r, c)` lives at `mem[r + c * n_rows]`. -/
structure Mat (eT : Type) where
  n_rows : Nat
  n_cols : Nat
  mem : List eT
deriving DecidableEq, Repr

namespace Mat

variable {eT : Type}

/-- The memory holds exactly `n_rows * n_cols` elements. -/
def WF (A : Mat eT) : Prop := A.mem.length = A.n_rows * A.n_cols

instance (A : Mat eT) : Decidable A.WF := by unfold WF; infer_instance

/-- Modelled from the spec: the number of elements `Mat::n_elem`. -/
def n_elem (A : Mat eT) : Nat := A.n_rows * A.n_cols

/-- Modelled from the spec: the emptiness test `Mat::is_empty()`, which is
`n_elem == 0`. -/
def is_empty (A : Mat eT) : Bool := A.n_elem == 0

/-- Modelled from the spec: the squareness test `Mat::is_square()`, which is
`n_rows == n_cols`. -/
def is_square (A : Mat eT) : Bool := A.n_rows == A.n_cols

/-- Linear access `mem[k]` through `memptr()`. -/
def memAt [Inhabited eT] (A : Mat eT) (k : Nat) : eT := A.mem.getD k default

/-- Modelled from the spec: the element access `Mat::at(r, c)`, which is
`mem[r + c * n_rows]`. -/
def «at» [Inhabited eT] (A : Mat eT) (r c : Nat) : eT := A.memAt (r + c * A.n_rows)

/-- Store `v` at `mem[k]` through `memptr()`. -/
def memSet (A : Mat eT) (k : Nat) (v : eT) : Mat eT :=
  { A with mem := A.mem.set k v }

/-- Modelled from the spec: the diagonality test `Mat::is_diagmat()` is not
among the source files. It is true exactly when every element off the main
diagonal is zero (the matrix need not be square). -/
def is_diagmat [Inhabited eT] [DecidableEq eT] [Zero eT] (A : Mat eT) : Bool :=
  (List.range A.n_cols).all fun c =>
    (List.range A.n_rows).all fun r => decide (r = c) || decide (A.at r c = 0)

/-- Modelled from the spec: the symmetry test `Mat::is_symmetric()` is not
among the source files. It is true exactly when the matrix is square and
`A(r,c) = A(c,r)` throughout. -/
def is_symmetric [Inhabited eT] [DecidableEq eT] (A : Mat eT) : Bool :=
  A.is_square &&
    (List.range A.n_cols).all fun c =>
      (List.range A.n_rows).all fun r => decide (A.at r c = A.at c r)

/-- Modelled from the spec: the hermitian test `Mat::is_hermitian()` is not
among the source files. Relative to the conjugation `conj`, it is true exactly
when the matrix is square and `A(r,c) = conj (A(c,r))` throughout. -/
def is_hermitian [Inhabited eT] [DecidableEq eT] (conj : eT → eT) (A : Mat eT) : Bool :=
  A.is_square &&
    (List.range A.n_cols).all fun c =>
      (List.range A.n_rows).all fun r => decide (A.at r c = conj (A.at c r))

/-- Modelled from the spec: `Mat::soft_reset()` is not among the source files;
for an ordinary (dynamically sized) matrix it empties the matrix. -/
def soft_reset (_A : Mat eT) : Mat eT := ⟨0, 0, []⟩

end Mat

/-! ## Element types -/

/-- What the code asks of the element type `eT` (with pod type `ℚ`). -/
structure ElemOps (eT : Type) where
  /-- `is_cx<eT>::yes`. -/
  is_cx : Bool
  /-- `arma_isnan`. -/
  isnan : eT → Bool
  /-- `std::abs`. -/
  abs : eT → ℚ
  /-- `access::tmp_real`. -/
  tmp_real : eT → ℚ
  /-- `access::tmp_imag`. -/
  tmp_imag : eT → ℚ
  /-- The conversion `eT(x)` of a pod value. -/
  of_pod : ℚ → eT
  /-- Complex conjugation (the identity on a real type). -/
  conj : eT → eT
  /-- Absolute values are never negative. -/
  abs_nonneg : ∀ x, 0 ≤ abs x

/-- Real elements in exact arithmetic: `eT = T = ℚ`; there is no NaN. -/
def realOps : ElemOps ℚ where
  is_cx := false
  isnan := fun _ => false
  abs := fun x => |x|
  tmp_real := fun x => x
  tmp_imag := fun _ => 0
  of_pod := fun x => x
  conj := fun x => x
  abs_nonneg := fun x => abs_nonneg x

/-- Real elements with a NaN: `none` is NaN, `some q` the number `q`. The
absolute value of NaN is NaN in the code; here it is `0`, and is never used by
the embedded functions. -/
def nanOps : ElemOps (Option ℚ) where
  is_cx := false
  isnan := fun x => x.isNone
  abs := fun x => |x.getD 0|
  tmp_real := fun x => x.getD 0
  tmp_imag := fun _ => 0
  of_pod := fun x => some x
  conj := fun x => x
  abs_nonneg := fun x => abs_nonneg (x.getD 0)

/-! ## Exceptions and routines outside the embedded files -/

/-- What the code throws: `arma_stop_runtime_error` throws a
`std::runtime_error`, a failed `arma_debug_check` a `std::logic_error`. -/
inductive Exn where
  | runtime_error (msg : String)
  | logic_error (msg : String)
deriving DecidableEq, Repr

/-- Routines the embedded functions call and whose bodies are outside the
embedded files. A routine that works in place on a matrix and reports a
`bool` is a function to the pair of the status and the matrix it leaves. -/
structure Externals (eT : Type) where
  /-- `auxlib::eig_sym(v, A)`: `none` when it fails, else the eigenvalues `v`. -/
  eig_sym : Mat eT → Option (List ℚ)
  /-- `auxlib::svd_dc(s, A)`: `none` when it fails, else the singular values `s`. -/
  svd_dc : Mat eT → Option (List ℚ)
  /-- `auxlib::inv_sympd(out, sympd_state_junk)`. -/
  inv_sympd : Mat eT → Bool × Mat eT
  /-- `auxlib::rudimentary_sym_check(out)`. -/
  rudimentary_sym_check : Mat eT → Bool
  /-- `op_inv_gen::apply_tiny(X)`. -/
  op_inv_gen_apply_tiny : Mat eT → Bool × Mat eT
  /-- `op_cond::rcond(expr)`. -/
  op_cond_rcond : Mat eT → ℚ

/-! ## `fn_rank.hpp` -/

/-- The counting loop
`for(i=0; i<n; ++i) { count += (mem[i] > tol) ? uword(1) : uword(0); }`. -/
def count_above (vals : List ℚ) (tol : ℚ) : Nat :=
  vals.foldl (fun count x => count + (if x > tol then 1 else 0)) 0

/-- First loop of `rank_diagmat`, with `k` iterations left at index `i`:
reads `A.at(i,i)`, stops with a runtime error on NaN, otherwise records
`abs_Aii` in `diag_abs_vals` and updates `max_abs_Aii`. -/
def rank_diagmat.scan {eT : Type} [Inhabited eT] (E : ElemOps eT) (A : Mat eT) :
    Nat → Nat → List ℚ → ℚ → Except Exn (List ℚ × ℚ)
  | 0, _, diag_abs_vals, max_abs_Aii => .ok (diag_abs_vals, max_abs_Aii)
  | k + 1, i, diag_abs_vals, max_abs_Aii =>
    let Aii := A.at i i
    let abs_Aii := E.abs Aii
    if E.isnan Aii then .error (.runtime_error "rank(): detected NaN")
    else
      rank_diagmat.scan E A k (i + 1) (diag_abs_vals ++ [abs_Aii])
        (if abs_Aii > max_abs_Aii then abs_Aii else max_abs_Aii)

/-- The function `rank_diagmat(A, tol)`. -/
def rank_diagmat {eT : Type} [Inhabited eT] (E : ElemOps eT) (eps : ℚ)
    (A : Mat eT) (tol : ℚ) : Except Exn Nat :=
  if A.is_empty then .ok 0
  else
    let N := min A.n_rows A.n_cols
    match rank_diagmat.scan E A N 0 [] 0 with
    | .error msg => .error msg
    | .ok (diag_abs_vals, max_abs_Aii) =>
      let tol := if tol = 0 then (max A.n_rows A.n_cols : ℚ) * max_abs_Aii * eps else tol
      .ok (count_above diag_abs_vals tol)

/-- The function `rank_sym(X, tol)`, with `A` the matrix the expression `X`
evaluates to. -/
def rank_sym {eT : Type} (X : Externals eT) (eps : ℚ) (A : Mat eT) (tol : ℚ) :
    Except Exn Nat :=
  if A.is_square == false then
    .error (.runtime_error "rank_sym(): given matrix must be square sized")
  else if A.is_empty then .ok 0
  else
    match X.eig_sym A with
    | none => .error (.runtime_error "rank_sym(): eig_sym failed")
    | some v =>
      let v_n_elem := v.length
      let tol :=
        if tol = 0 ∧ v_n_elem > 0 then
          (max A.n_rows A.n_cols : ℚ) * v.getD (v_n_elem - 1) 0 * eps
        else tol
      .ok (count_above v tol)

/-- The function `rank(X, tol)`, with `A` the matrix the expression `X`
evaluates to and `is_op_diagmat` the value of `is_op_diagmat<T1>::value` for
the type `T1` of the expression. -/
def rank {eT : Type} [Inhabited eT] [DecidableEq eT] [Zero eT] (E : ElemOps eT)
    (X : Externals eT) (eps : ℚ) (is_op_diagmat : Bool) (A : Mat eT) (tol : ℚ) :
    Except Exn Nat :=
  if A.is_empty then .ok 0
  else if is_op_diagmat || A.is_diagmat then rank_diagmat E eps A tol
  else if !E.is_cx && A.is_symmetric then rank_sym X eps A tol
  else if E.is_cx && A.is_hermitian E.conj then rank_sym X eps A tol
  else
    match X.svd_dc A with
    | none => .error (.runtime_error "rank(): svd failed")
    | some s =>
      let s_n_elem := s.length
      let tol :=
        if tol = 0 ∧ s_n_elem > 0 then
          (max A.n_rows A.n_cols : ℚ) * s.getD 0 0 * eps
        else tol
      .ok (count_above s tol)

/-! ## `op_inv_gen_bones.hpp`: `inv_opts` -/

namespace inv_opts

/-- The struct `inv_opts::opts`; `flags` is a `uword`. -/
structure opts where
  flags : Nat
deriving DecidableEq, Repr

/-- The operator `opts::operator+`: `opts(flags | rhs.flags)`. -/
def opts.add (a rhs : opts) : opts := ⟨a.flags ||| rhs.flags⟩

instance : Add opts := ⟨opts.add⟩

def flag_none : Nat := 0
def flag_tiny : Nat := 1 <<< 0
def flag_likely_sympd : Nat := 1 <<< 1
def flag_no_sympd : Nat := 1 <<< 2

/-- The constant `inv_opts::none`. -/
def none : opts := ⟨flag_none⟩
/-- The constant `inv_opts::tiny`. -/
def tiny : opts := ⟨flag_tiny⟩
/-- The constant `inv_opts::likely_sympd`. -/
def likely_sympd : opts := ⟨flag_likely_sympd⟩
/-- The constant `inv_opts::no_sympd`. -/
def no_sympd : opts := ⟨flag_no_sympd⟩

/-- The four named options. -/
inductive Name where
  | none | tiny | likely_sympd | no_sympd
deriving DecidableEq, Repr

/-- The `opts` constant of a named option. -/
def Name.toOpts : Name → opts
  | .none => inv_opts.none
  | .tiny => inv_opts.tiny
  | .likely_sympd => inv_opts.likely_sympd
  | .no_sympd => inv_opts.no_sympd

/-- The flag constant of a named option. -/
def Name.flag : Name → Nat
  | .none => flag_none
  | .tiny => flag_tiny
  | .likely_sympd => flag_likely_sympd
  | .no_sympd => flag_no_sympd

/-- The sum `x₁ + x₂ + ... + xₙ` of named options, written with `operator+`
from left to right; the empty sum is `inv_opts::none`. -/
def sum (l : List Name) : opts :=
  l.foldl (fun acc x => acc + x.toOpts) inv_opts.none

/-- The test `bool(flags & flag)` of `op_inv_spd::apply_direct`. -/
def test (flags flag : Nat) : Bool := (flags &&& flag) != 0

end inv_opts

/-! ## `op_inv_spd_meat.hpp` -/

/-- Modelled from the spec: the macro `arma_debug_warn_level` is not among the
source files. The call `arma_debug_warn_level(1, msg)` issues the warning
`msg` when debugging is compiled in (`arma_config::debug`), and does nothing
otherwise. -/
def arma_debug_warn (debug : Bool) (msg : String) : List String :=
  if debug then [msg] else []

/-- What a call of `apply_direct` leaves behind: the matrix `out` it worked
on, the warnings it issued, and either the `bool` it returned or the exception
it threw. -/
structure InvResult (eT : Type) where
  out : Mat eT
  warnings : List String
  status : Except Exn Bool

/-- What a call of `op_inv_spd::apply_tiny` leaves behind: the matrix `out` it
worked on, the warnings it issued, and the `bool` it returned. -/
structure TinyResult (eT : Type) where
  out : Mat eT
  warnings : List String
  status : Bool

namespace op_inv_spd

variable {eT : Type} [Inhabited eT]

/-- First loop of `apply_tiny` (debug build): over the diagonal, with
`colmem[i]` at `mem[i + i*N]`; the state is `(print_warning, max_diag)`. -/
def apply_tiny.diag_pass (E : ElemOps eT) (out : Mat eT) (N : Nat) : Bool × ℚ :=
  (List.range N).foldl
    (fun (st : Bool × ℚ) i =>
      let out_ii_real := E.tmp_real (out.memAt (i + i * N))
      (if out_ii_real ≤ 0 then true else st.1,
       if out_ii_real > st.2 then out_ii_real else st.2))
    (false, 0)

/-- Second loop of `apply_tiny` (debug build): over the elements below the
diagonal, `colmem[r]` being `mem[r + c*N]` for `c < N` and `c+1 ≤ r < N`. -/
def apply_tiny.lower_pass (E : ElemOps eT) (out : Mat eT) (N : Nat)
    (print_warning : Bool) (max_diag : ℚ) : Bool :=
  (List.range N).foldl
    (fun pw c =>
      (List.range' (c + 1) (N - (c + 1))).foldl
        (fun pw r =>
          let abs_val := E.abs (out.memAt (r + c * N))
          if abs_val > max_diag then true else pw)
        pw)
    print_warning

/-- The function `op_inv_spd::apply_tiny(out)`. -/
def apply_tiny (E : ElemOps eT) (X : Externals eT) (debug : Bool) (out : Mat eT) :
    TinyResult eT :=
  let N := out.n_rows
  let warnings :=
    if debug then
      let st := apply_tiny.diag_pass E out N
      let print_warning := apply_tiny.lower_pass E out N st.1 st.2
      if print_warning then
        arma_debug_warn debug "inv_sympd(): given matrix is not positive definite"
      else []
    else []
  let r := X.op_inv_gen_apply_tiny out
  ⟨r.2, warnings, r.1⟩

/-- The loop of `apply_direct` over the imaginary parts of the diagonal
(complex element types), with `k` iterations left at index `i`: `false` when
some `|imag(out_ii)|` exceeds `tol`, which makes `apply_direct` return
`false`. -/
def apply_direct.imag_ok (E : ElemOps eT) (tol : ℚ) (N : Nat) (out : Mat eT) :
    Nat → Nat → Bool
  | 0, _ => true
  | k + 1, i =>
    let out_ii_imag := E.tmp_imag (out.memAt (i + i * N))
    if |out_ii_imag| > tol then false
    else apply_direct.imag_ok E tol N out k (i + 1)

/-- The loop of `apply_direct` for a diagonal matrix, with `k` iterations left
at index `i`: returns `false` at the first diagonal entry whose real part is
not positive, leaving the reciprocals already written; otherwise replaces the
entry by its reciprocal. -/
def apply_direct.diag_loop (E : ElemOps eT) (N : Nat) :
    Nat → Nat → Mat eT → Bool × Mat eT
  | 0, _, out => (true, out)
  | k + 1, i, out =>
    let out_ii_real := E.tmp_real (out.memAt (i + i * N))
    if out_ii_real ≤ 0 then (false, out)
    else
      apply_direct.diag_loop E N k (i + 1)
        (out.memSet (i + i * N) (E.of_pod (1 / out_ii_real)))

/-- Lines 129-171 of `apply_direct`: what follows the tiny-matrix attempt. -/
def apply_direct.main [DecidableEq eT] [Zero eT] (E : ElemOps eT) (X : Externals eT)
    (eps : ℚ) (is_op_diagmat : Bool) (N : Nat) (out : Mat eT) : Bool × Mat eT :=
  if E.is_cx && !(apply_direct.imag_ok E (100 * eps) N out N 0) then (false, out)
  else if is_op_diagmat || out.is_diagmat then apply_direct.diag_loop E N N 0 out
  else X.inv_sympd out

/-- The function `op_inv_spd::apply_direct<T1,has_user_flags>(out, expr, flags)`,
with `expr` the matrix the expression evaluates to and `is_op_diagmat` the
value of `is_op_diagmat<T1>::value`. -/
def apply_direct [DecidableEq eT] [Zero eT] (E : ElemOps eT) (X : Externals eT)
    (debug : Bool) (eps : ℚ) (is_op_diagmat has_user_flags : Bool)
    (expr : Mat eT) (flags : Nat) : InvResult eT :=
  let tiny := has_user_flags && inv_opts.test flags inv_opts.flag_tiny
  let likely_sympd := has_user_flags && inv_opts.test flags inv_opts.flag_likely_sympd
  let no_sympd := has_user_flags && inv_opts.test flags inv_opts.flag_no_sympd
  let w1 :=
    (if likely_sympd then
      arma_debug_warn debug "inv_sympd(): option 'likely_sympd' ignored" else [])
    ++ (if no_sympd then
      arma_debug_warn debug "inv_sympd(): option 'no_sympd' ignored" else [])
  let out := expr
  if debug && (out.is_square == false) then
    ⟨out, w1, .error (.logic_error "inv_sympd(): given matrix must be square sized")⟩
  else
    let w2 :=
      if debug && (X.rudimentary_sym_check out == false) then
        (if !E.is_cx then
          arma_debug_warn debug "inv_sympd(): given matrix is not symmetric" else [])
        ++ (if E.is_cx then
          arma_debug_warn debug "inv_sympd(): given matrix is not hermitian" else [])
      else []
    let N := min out.n_rows out.n_cols
    if tiny && decide (N ≤ 4) && !E.is_cx then
      let t := apply_tiny E X debug out
      if t.status then ⟨t.out, w1 ++ w2 ++ t.warnings, .ok true⟩
      else
        let r := apply_direct.main E X eps is_op_diagmat N t.out
        ⟨r.2, w1 ++ w2 ++ t.warnings, .ok r.1⟩
    else
      let r := apply_direct.main E X eps is_op_diagmat N out
      ⟨r.2, w1 ++ w2, .ok r.1⟩

/-- What a call of `apply` leaves behind: the matrix `out`, the warnings
issued, and the exception thrown, if any. -/
structure ApplyResult (eT : Type) where
  out : Mat eT
  warnings : List String
  thrown : Option Exn

/-- The common body of `op_inv_spd::apply` and `op_inv_spd_default::apply`,
after the call of `apply_direct` whose result is `r`: on status `false`,
`out.soft_reset()` and a runtime error. An exception thrown inside
`apply_direct` passes through. -/
def apply.finish (r : InvResult eT) : ApplyResult eT :=
  match r.status with
  | .error e => ⟨r.out, r.warnings, some e⟩
  | .ok status =>
    if status == false then
      ⟨r.out.soft_reset, r.warnings,
        some (.runtime_error "inv_sympd(): matrix is singular or not positive definite")⟩
    else ⟨r.out, r.warnings, none⟩

/-- The function `op_inv_spd::apply(out, X)`, with `m` the matrix the operand
`X.m` evaluates to and `in_aux_uword_a` the flags held by the `Op`. The
template argument `has_user_flags` of `apply_direct` has its default, `true`. -/
def apply [DecidableEq eT] [Zero eT] (E : ElemOps eT) (X : Externals eT)
    (debug : Bool) (eps : ℚ) (is_op_diagmat : Bool)
    (m : Mat eT) (in_aux_uword_a : Nat) : ApplyResult eT :=
  let flags := in_aux_uword_a
  apply.finish (apply_direct E X debug eps is_op_diagmat true m flags)

end op_inv_spd

namespace op_inv_spd_default

variable {eT : Type} [Inhabited eT] [DecidableEq eT] [Zero eT]

/-- The function `op_inv_spd_default::apply_direct(out, expr)`. -/
def apply_direct (E : ElemOps eT) (X : Externals eT) (debug : Bool) (eps : ℚ)
    (is_op_diagmat : Bool) (expr : Mat eT) : InvResult eT :=
  op_inv_spd.apply_direct E X debug eps is_op_diagmat false expr 0

/-- The function `op_inv_spd_default::apply(out, X)`. -/
def apply (E : ElemOps eT) (X : Externals eT) (debug : Bool) (eps : ℚ)
    (is_op_diagmat : Bool) (m : Mat eT) : op_inv_spd.ApplyResult eT :=
  op_inv_spd.apply.finish (apply_direct E X debug eps is_op_diagmat m)

end op_inv_spd_default

/-! ## `op_inv_rcond_meat.hpp` -/

namespace op_inv_rcond

variable {eT : Type} [Inhabited eT] [DecidableEq eT] [Zero eT]

end op_inv_rcond

/-! ## `op_sp_nonzeros_meat.hpp` -/

/-- Modelled from the spec: the sparse matrix container `SpMat<eT>` is not
among the source files. It is in compressed sparse column form: the stored
nonzero values in column-major order, their row indices, and the column
pointers. -/
structure SpMat (eT : Type) where
  n_rows : Nat
  n_cols : Nat
  n_nonzero : Nat
  values : List eT
  row_indices : List Nat
  col_ptrs : List Nat
deriving DecidableEq, Repr

/-- The proxy `SpProxy<T1>` of a sparse object, as `op_sp_nonzeros::apply`
uses it; `Iter` is the type of its `const_iterator_type`. -/
structure SpProxy (eT : Type) (Iter : Type) where
  /-- `is_SpMat<typename SpProxy<T1>::stored_type>::value`. -/
  stored_is_SpMat : Bool
  /-- The matrix `unwrap_spmat<stored_type>(P.Q).M`. -/
  Q : SpMat eT
  /-- `P.get_n_nonzero()`. -/
  get_n_nonzero : Nat
  /-- `P.begin()`. -/
  begin : Iter
  /-- Dereference `*it`. -/
  deref : Iter → eT
  /-- Increment `++it`. -/
  incr : Iter → Iter

/-- Modelled from the spec: `SpMat::const_iterator` and the `SpProxy` of a
plain `SpMat` are not among the source files. The iterator walks the stored
values in column-major order: it holds the position `internal_pos`, starts at
`0`, dereferences to `values[internal_pos]` and is incremented by one (the
column it also tracks plays no part in the value). -/
def SpProxy.ofSpMat {eT : Type} [Inhabited eT] (M : SpMat eT) : SpProxy eT Nat where
  stored_is_SpMat := true
  Q := M
  get_n_nonzero := M.n_nonzero
  begin := 0
  deref := fun internal_pos => M.values.getD internal_pos default
  incr := fun internal_pos => internal_pos + 1

/-- Modelled from the spec: `arrayops::copy` is not among the source files.
The call `arrayops::copy(dest, src, n_elem)` fills `dest` with the first
`n_elem` elements of `src`. -/
def arrayops.copy {eT : Type} (src : List eT) (n_elem : Nat) : List eT :=
  src.take n_elem

namespace op_sp_nonzeros

variable {eT Iter : Type}

/-- The loop `for(i=0; i<N; ++i) { out_mem[i] = (*it); ++it; }`, with `k`
iterations left; `out_mem` holds the elements written so far. -/
def apply.loop (P : SpProxy eT Iter) : Nat → Iter → List eT → List eT
  | 0, _, out_mem => out_mem
  | k + 1, it, out_mem => apply.loop P k (P.incr it) (out_mem ++ [P.deref it])

/-- The function `op_sp_nonzeros::apply(out, in)`, with `P` the proxy of
`in.m`. After `out.set_size(N,1)` the memory of `out` is written from index
`0` upwards, so `out` is given by the list of the elements written. -/
def apply (P : SpProxy eT Iter) : Mat eT :=
  let N := P.get_n_nonzero
  if N > 0 then
    if P.stored_is_SpMat then ⟨N, 1, arrayops.copy P.Q.values N⟩
    else ⟨N, 1, apply.loop P N P.begin []⟩
  else ⟨N, 1, []⟩

end op_sp_nonzeros

/-! ## Definitions used to state the properties -/

/-- The running maximum `m = (x > m) ? x : m` over a list, from `m0`. -/
def running_max (l : List ℚ) (m0 : ℚ) : ℚ :=
  l.foldl (fun m x => if x > m then x else m) m0

/-- The absolute values `|A(i,i)|` of the diagonal entries `i0 ≤ i < i0 + k`. -/
def diag_abs {eT : Type} [Inhabited eT] (E : ElemOps eT) (A : Mat eT) (i0 k : Nat) :
    List ℚ :=
  (List.range' i0 k).map fun i => E.abs (A.at i i)

/-! ## Concrete instances, for evaluating the embedded functions -/

/-- Modelled from the spec: `op_inv_gen::apply_tiny` is not among the source
files. It is the small-matrix fast path of general (not SPD) inversion; this
stand-in covers the sizes 0 and 1 only: a 0 x 0 matrix is left as it is with
status `true`, a 1 x 1 matrix `[a]` with `a ≠ 0` becomes `[1/a]` with status
`true`, and every other input is left as it is with status `false`. -/
def op_inv_gen.apply_tiny_small (X : Mat ℚ) : Bool × Mat ℚ :=
  if X.n_rows = 0 then (true, X)
  else if X.n_rows = 1 then
    let a := X.memAt 0
    if a ≠ 0 then (true, X.memSet 0 (1 / a)) else (false, X)
  else (false, X)

/-- The symmetric, non-diagonal 2 x 2 matrix with rows `(0, 1)` and `(1, 0)`;
its eigenvalues are `-1` and `1`. -/
def swap2 : Mat ℚ := ⟨2, 2, [0, 1, 1, 0]⟩

/-- The 2 x 2 matrix with rows `(0, 1)` and `(2, 0)`, neither diagonal nor
symmetric; its singular values are `2` and `1`. -/
def skew2 : Mat ℚ := ⟨2, 2, [0, 2, 1, 0]⟩

/-- A concrete instance of the outside routines over `ℚ`. Each routine gives
the right answer on the inputs it knows and reports failure on the others:
`eig_sym` knows `swap2`, `svd_dc` knows `skew2`, the general tiny-matrix
inversion knows the matrices of size at most 1, `inv_sympd` always reports
failure, and `rcond` of an invertible 1 x 1 matrix is `1`. -/
def refExternals : Externals ℚ where
  eig_sym := fun A => if A = swap2 then some [-1, 1] else none
  svd_dc := fun A => if A = skew2 then some [2, 1] else none
  inv_sympd := fun A => (false, A)
  rudimentary_sym_check := fun A => A.is_symmetric
  op_inv_gen_apply_tiny := op_inv_gen.apply_tiny_small
  op_cond_rcond := fun A => if A.n_rows = 1 ∧ A.memAt 0 ≠ 0 then 1 else 0

/-- The `i`-th entry a proxy's iterator yields: `*it` after `i` increments
from `P.begin()`. -/
def SpProxy.nth {eT Iter : Type} (P : SpProxy eT Iter) (i : Nat) : eT :=
  P.deref (P.incr^[i] P.begin)

/-- A proxy whose stored type is a plain `SpMat` iterates over the stored
values of that matrix: the values array holds at least `get_n_nonzero()`
elements and the `i`-th entry the iterator yields is `values[i]`. -/
def SpProxy.Coherent {eT Iter : Type} [Inhabited eT] (P : SpProxy eT Iter) : Prop :=
  P.stored_is_SpMat = true →
    P.get_n_nonzero ≤ P.Q.values.length ∧
    ∀ i, i < P.get_n_nonzero → P.nth i = P.Q.values.getD i default

/-- A sparse matrix with the three stored entries `5, 7, 9` (3 x 2, entries at
`(0,0)`, `(2,0)`, `(1,1)`); the values array ends with the customary extra
zero. -/
def sp3 : SpMat ℚ where
  n_rows := 3
  n_cols := 2
  n_nonzero := 3
  values := [5, 7, 9, 0]
  row_indices := [0, 2, 1, 0]
  col_ptrs := [0, 2, 3]

/-! ## `fn_rank.hpp` with the arithmetic of the pod type left open

The definitions above take the pod type to be `ℚ`. Those below embed the same
three functions for an arbitrary pod type `T`, whose multiplication and
comparisons are whatever the machine type provides (for `double`: rounding,
overflow to infinity, NaN). -/

/-- What `fn_rank.hpp` asks of the pod type `T`. -/
structure PodOps (T : Type) where
  /-- The value `T(0)`. -/
  zero : T
  /-- The conversion of a `uword` to `T`. -/
  of_uword : Nat → T
  /-- The product `x * y` in `T`. -/
  mul : T → T → T
  /-- The comparison `x > y` in `T`. -/
  gt : T → T → Bool
  /-- The comparison `x == y` in `T`. -/
  eq : T → T → Bool
  /-- The value `std::numeric_limits<T>::epsilon()`. -/
  epsilon : T

/-- What `fn_rank.hpp` asks of the element type `eT` with pod type `T`. -/
structure PodElem (eT T : Type) where
  /-- `is_cx<eT>::yes`. -/
  is_cx : Bool
  /-- `arma_isnan`. -/
  isnan : eT → Bool
  /-- `std::abs`. -/
  abs : eT → T
  /-- Complex conjugation (the identity on a real type). -/
  conj : eT → eT

/-- The LAPACK-backed routines `fn_rank.hpp` calls, for pod type `T`. -/
structure PodRoutines (eT T : Type) where
  /-- `auxlib::eig_sym(v, A)`: `none` when it fails, else the eigenvalues `v`. -/
  eig_sym : Mat eT → Option (List T)
  /-- `auxlib::svd_dc(s, A)`: `none` when it fails, else the singular values `s`. -/
  svd_dc : Mat eT → Option (List T)

namespace Pod

variable {eT T : Type}

/-- The counting loop
`for(i=0; i<n; ++i) { count += (mem[i] > tol) ? uword(1) : uword(0); }`. -/
def count_above (P : PodOps T) (vals : List T) (tol : T) : Nat :=
  vals.foldl (fun count x => count + (if P.gt x tol then 1 else 0)) 0

/-- The default tolerance `(std::max)(A.n_rows, A.n_cols) * x * epsilon()`,
multiplied from left to right in `T`. -/
def default_tol (P : PodOps T) (A : Mat eT) (x : T) : T :=
  P.mul (P.mul (P.of_uword (max A.n_rows A.n_cols)) x) P.epsilon

/-- First loop of `rank_diagmat`, with `k` iterations left at index `i`. -/
def rank_diagmat.scan [Inhabited eT] (P : PodOps T) (E : PodElem eT T) (A : Mat eT) :
    Nat → Nat → List T → T → Except Exn (List T × T)
  | 0, _, diag_abs_vals, max_abs_Aii => .ok (diag_abs_vals, max_abs_Aii)
  | k + 1, i, diag_abs_vals, max_abs_Aii =>
    let Aii := A.at i i
    let abs_Aii := E.abs Aii
    if E.isnan Aii then .error (.runtime_error "rank(): detected NaN")
    else
      rank_diagmat.scan P E A k (i + 1) (diag_abs_vals ++ [abs_Aii])
        (if P.gt abs_Aii max_abs_Aii then abs_Aii else max_abs_Aii)

/-- The function `rank_diagmat(A, tol)`. -/
def rank_diagmat [Inhabited eT] (P : PodOps T) (E : PodElem eT T) (A : Mat eT) (tol : T) :
    Except Exn Nat :=
  if A.is_empty then .ok 0
  else
    let N := min A.n_rows A.n_cols
    match rank_diagmat.scan P E A N 0 [] P.zero with
    | .error msg => .error msg
    | .ok (diag_abs_vals, max_abs_Aii) =>
      let tol := if P.eq tol P.zero then default_tol P A max_abs_Aii else tol
      .ok (count_above P diag_abs_vals tol)

/-- The function `rank_sym(X, tol)`, with `A` the matrix the expression `X`
evaluates to. -/
def rank_sym (P : PodOps T) (R : PodRoutines eT T) (A : Mat eT) (tol : T) :
    Except Exn Nat :=
  if A.is_square == false then
    .error (.runtime_error "rank_sym(): given matrix must be square sized")
  else if A.is_empty then .ok 0
  else
    match R.eig_sym A with
    | none => .error (.runtime_error "rank_sym(): eig_sym failed")
    | some v =>
      let v_n_elem := v.length
      let tol :=
        if P.eq tol P.zero && decide (v_n_elem > 0) then
          default_tol P A (v.getD (v_n_elem - 1) P.zero)
        else tol
      .ok (count_above P v tol)

/-- The function `rank(X, tol)`, with `A` the matrix the expression `X`
evaluates to and `is_op_diagmat` the value of `is_op_diagmat<T1>::value`. -/
def rank [Inhabited eT] [DecidableEq eT] [Zero eT] (P : PodOps T) (E : PodElem eT T)
    (R : PodRoutines eT T) (is_op_diagmat : Bool) (A : Mat eT) (tol : T) :
    Except Exn Nat :=
  if A.is_empty then .ok 0
  else if is_op_diagmat || A.is_diagmat then rank_diagmat P E A tol
  else if !E.is_cx && A.is_symmetric then rank_sym P R A tol
  else if E.is_cx && A.is_hermitian E.conj then rank_sym P R A tol
  else
    match R.svd_dc A with
    | none => .error (.runtime_error "rank(): svd failed")
    | some s =>
      let s_n_elem := s.length
      let tol :=
        if P.eq tol P.zero && decide (s_n_elem > 0) then
          default_tol P A (s.getD 0 P.zero)
        else tol
      .ok (count_above P s tol)

end Pod

/-- Exact arithmetic as a pod type: `T = ℚ` with machine epsilon `eps`. -/
def exactPod (eps : ℚ) : PodOps ℚ where
  zero := 0
  of_uword := fun n => (n : ℚ)
  mul := fun x y => x * y
  gt := fun x y => decide (x > y)
  eq := fun x y => decide (x = y)
  epsilon := eps

/-- The element operations `E`, for the pod type `ℚ`. -/
def ElemOps.toPod {eT : Type} (E : ElemOps eT) : PodElem eT ℚ where
  is_cx := E.is_cx
  isnan := E.isnan
  abs := E.abs
  conj := E.conj

/-- The routines `eig_sym` and `svd_dc` of `X`, for the pod type `ℚ`. -/
def Externals.toPod {eT : Type} (X : Externals eT) : PodRoutines eT ℚ where
  eig_sym := X.eig_sym
  svd_dc := X.svd_dc

/-- A pod type whose products overflow, a coarse stand-in for `double` on
non-negative values: a rational below `2^1024`, or `+inf`. -/
inductive Ovf where
  | fin (q : ℚ)
  | inf
deriving DecidableEq, Repr

/-- The arithmetic of `Ovf`: a product of finite values that reaches `2^1024`
is `+inf`, a product with `+inf` is `+inf`, and nothing is greater than
`+inf`; epsilon is `2^-52`. Rounding, NaN, signed zeros and negative overflow
are not represented. -/
def ovfPod : PodOps Ovf where
  zero := .fin 0
  of_uword := fun n => .fin n
  mul := fun a b =>
    match a, b with
    | .fin x, .fin y => if x * y < 2 ^ 1024 then .fin (x * y) else .inf
    | _, _ => .inf
  gt := fun a b =>
    match a, b with
    | .fin x, .fin y => decide (x > y)
    | .inf, .fin _ => true
    | _, .inf => false
  eq := fun a b => decide (a = b)
  epsilon := .fin (1 / 2 ^ 52)

/-- Real elements in `ℚ` with absolute values in `Ovf`. -/
def ovfElem : PodElem ℚ Ovf where
  is_cx := false
  isnan := fun _ => false
  abs := fun x => .fin |x|
  conj := fun x => x

/-- The number `2^1023`, of the order of the largest `double`. -/
def huge : ℚ := 2 ^ 1023

/-- The 2 x 2 matrix with rows `(0, 1)` and `(2^1023, 0)`, neither diagonal
nor symmetric; its singular values are `2^1023` and `1`. -/
def big2 : Mat ℚ := ⟨2, 2, [0, huge, 1, 0]⟩

/-- Routines that know `big2` only: `svd_dc` gives the list `s` on `big2` and
fails elsewhere; `eig_sym` fails. -/
def big2Routines {T : Type} (s : List T) : PodRoutines ℚ T where
  eig_sym := fun _ => none
  svd_dc := fun A => if A = big2 then some s else none

/-! ## Lemmas on the loops of `fn_rank.hpp` -/

theorem count_above_foldl (vals : List ℚ) (tol : ℚ) (c : Nat) :
    vals.foldl (fun count x => count + (if x > tol then 1 else 0)) c
      = c + vals.countP (fun x => decide (tol < x)) := by
  induction vals generalizing c with
  | nil => simp
  | cons x xs ih =>
    rw [List.foldl_cons, ih, List.countP_cons]
    by_cases h : tol < x
    · simp [h]; omega
    · simp [h]

theorem count_above_eq_countP (vals : List ℚ) (tol : ℚ) :
    count_above vals tol = vals.countP (fun x => decide (tol < x)) := by
  unfold count_above
  rw [count_above_foldl]; simp

theorem card_filter_range (N : Nat) (p : Nat → Prop) [DecidablePred p] :
    ((Finset.range N).filter p).card = (List.range N).countP (fun i => decide (p i)) := by
  rw [List.countP_eq_length_filter, Finset.card_def, Finset.filter_val, Finset.range_val]
  simp [Multiset.range, Multiset.filter_coe]

theorem running_max_ge_init (l : List ℚ) (m0 : ℚ) : m0 ≤ running_max l m0 := by
  induction l generalizing m0 with
  | nil => simp [running_max]
  | cons x xs ih =>
    simp only [running_max, List.foldl_cons]
    by_cases h : x > m0
    · simp only [h, if_true]
      exact le_trans (le_of_lt h) (ih x)
    · simp only [h, if_false]
      exact ih m0

theorem running_max_ge_mem (l : List ℚ) (m0 : ℚ) : ∀ x ∈ l, x ≤ running_max l m0 := by
  induction l generalizing m0 with
  | nil => simp
  | cons y ys ih =>
    intro x hx
    simp only [running_max, List.foldl_cons]
    rcases List.mem_cons.mp hx with rfl | hx
    · by_cases h : x > m0
      · simp only [h, if_true]; exact running_max_ge_init ys x
      · simp only [h, if_false]
        exact le_trans (not_lt.mp h) (running_max_ge_init ys m0)
    · exact ih _ x hx

theorem running_max_attained (l : List ℚ) (m0 : ℚ) :
    running_max l m0 = m0 ∨ running_max l m0 ∈ l := by
  induction l generalizing m0 with
  | nil => simp [running_max]
  | cons y ys ih =>
    simp only [running_max, List.foldl_cons]
    by_cases h : y > m0
    · simp only [h, if_true]
      rcases ih y with h1 | h1
      · right; rw [show List.foldl (fun m x => if x > m then x else m) y ys = y from h1]
        exact List.mem_cons_self _ _
      · right; exact List.mem_cons_of_mem _ h1
    · simp only [h, if_false]
      rcases ih m0 with h1 | h1
      · left; exact h1
      · right; exact List.mem_cons_of_mem _ h1

/-- Without a NaN among the diagonal entries it visits, the first loop of
`rank_diagmat` ends normally, having appended their absolute values and
folded them into the running maximum. -/
theorem rank_diagmat_scan_ok {eT : Type} [Inhabited eT] (E : ElemOps eT) (A : Mat eT)
    (k i : Nat) (vals : List ℚ) (mx : ℚ)
    (h : ∀ j, i ≤ j → j < i + k → E.isnan (A.at j j) = false) :
    rank_diagmat.scan E A k i vals mx
      = .ok (vals ++ diag_abs E A i k, running_max (diag_abs E A i k) mx) := by
  induction k generalizing i vals mx with
  | zero => simp [rank_diagmat.scan, diag_abs, running_max]
  | succ k ih =>
    have hi : E.isnan (A.at i i) = false := h i (le_refl _) (by omega)
    have hrest : ∀ j, i + 1 ≤ j → j < i + 1 + k → E.isnan (A.at j j) = false :=
      fun j h1 h2 => h j (by omega) (by omega)
    simp only [rank_diagmat.scan, hi, Bool.false_eq_true, if_false]
    rw [ih (i + 1) _ _ hrest]
    simp [diag_abs, running_max, List.range'_succ]

/-- A NaN on the diagonal makes the first loop of `rank_diagmat` throw. -/
theorem rank_diagmat_scan_nan {eT : Type} [Inhabited eT] (E : ElemOps eT) (A : Mat eT)
    (k i : Nat) (vals : List ℚ) (mx : ℚ)
    (h : ∃ j, i ≤ j ∧ j < i + k ∧ E.isnan (A.at j j) = true) :
    rank_diagmat.scan E A k i vals mx = .error (.runtime_error "rank(): detected NaN") := by
  induction k generalizing i vals mx with
  | zero => obtain ⟨j, h1, h2, _⟩ := h; omega
  | succ k ih =>
    by_cases hi : E.isnan (A.at i i) = true
    · simp [rank_diagmat.scan, hi]
    · obtain ⟨j, h1, h2, h3⟩ := h
      have hji : j ≠ i := fun e => hi (e ▸ h3)
      simp only [rank_diagmat.scan, hi, if_false]
      exact ih (i + 1) _ _ ⟨j, by omega, by omega, h3⟩

theorem Mat.not_empty_dims {eT : Type} (A : Mat eT) (h : A.is_empty = false) :
    0 < A.n_rows ∧ 0 < A.n_cols := by
  simp only [Mat.is_empty, Mat.n_elem, beq_eq_false_iff_ne, ne_eq, Nat.mul_eq_zero,
    not_or] at h
  omega

theorem count_above_diag_abs {eT : Type} [Inhabited eT] (E : ElemOps eT) (A : Mat eT)
    (N : Nat) (t : ℚ) :
    count_above (diag_abs E A 0 N) t
      = ((Finset.range N).filter (fun i => t < E.abs (A.at i i))).card := by
  rw [count_above_eq_countP, card_filter_range, diag_abs, List.countP_map,
    List.range_eq_range']
  rfl

theorem mem_diag_abs {eT : Type} [Inhabited eT] (E : ElemOps eT) (A : Mat eT)
    (N : Nat) (x : ℚ) :
    x ∈ diag_abs E A 0 N ↔ ∃ i, i < N ∧ E.abs (A.at i i) = x := by
  simp [diag_abs, List.mem_range']

/-- The running maximum of the diagonal's absolute values, started at `0`, is
the greatest of them when there is at least one. -/
theorem running_max_diag_abs {eT : Type} [Inhabited eT] (E : ElemOps eT) (A : Mat eT)
    (N : Nat) (hN : 0 < N) :
    (∃ i, i < N ∧ E.abs (A.at i i) = running_max (diag_abs E A 0 N) 0) ∧
    (∀ i, i < N → E.abs (A.at i i) ≤ running_max (diag_abs E A 0 N) 0) := by
  have hub : ∀ i, i < N → E.abs (A.at i i) ≤ running_max (diag_abs E A 0 N) 0 :=
    fun i hi => running_max_ge_mem _ _ _ ((mem_diag_abs E A N _).mpr ⟨i, hi, rfl⟩)
  refine ⟨?_, hub⟩
  rcases running_max_attained (diag_abs E A 0 N) 0 with h0 | hmem
  · refine ⟨0, hN, ?_⟩
    have h1 := hub 0 hN
    rw [h0] at h1 ⊢
    exact le_antisymm h1 (E.abs_nonneg _)
  · exact (mem_diag_abs E A N _).mp hmem

/-- C1. `rank_diagmat(A, tol)` in exact arithmetic: an empty matrix has rank
`0`; for a non-empty matrix without NaN on its diagonal the result is the
number of indices `i < min(n_rows, n_cols)` with `|A(i,i)| > t`, where `t` is
`tol` when `tol ≠ 0`, and `max(n_rows, n_cols) * m * eps` when `tol = 0`, `m`
being the greatest of the `|A(i,i)|`. -/
theorem rank_diagmat_counts {eT : Type} [Inhabited eT] (E : ElemOps eT) (eps : ℚ)
    (A : Mat eT) (tol : ℚ) :
    (A.is_empty = true → rank_diagmat E eps A tol = .ok 0) ∧
    (A.is_empty = false →
      (∀ i, i < min A.n_rows A.n_cols → E.isnan (A.at i i) = false) →
      ∃ m : ℚ,
        (∃ i, i < min A.n_rows A.n_cols ∧ E.abs (A.at i i) = m) ∧
        (∀ i, i < min A.n_rows A.n_cols → E.abs (A.at i i) ≤ m) ∧
        rank_diagmat E eps A tol
          = .ok ((Finset.range (min A.n_rows A.n_cols)).filter
              (fun i =>
                (if tol ≠ 0 then tol else (max A.n_rows A.n_cols : ℚ) * m * eps)
                  < E.abs (A.at i i))).card) := by
  constructor
  · intro h
    simp [rank_diagmat, h]
  · intro h hnan
    have hN : 0 < min A.n_rows A.n_cols := by
      have := A.not_empty_dims h
      exact lt_min this.1 this.2
    obtain ⟨hatt, hub⟩ := running_max_diag_abs E A _ hN
    refine ⟨running_max (diag_abs E A 0 (min A.n_rows A.n_cols)) 0, hatt, hub, ?_⟩
    have hscan := rank_diagmat_scan_ok E A (min A.n_rows A.n_cols) 0 [] 0
      (fun j _ hj => hnan j (by omega))
    simp only [rank_diagmat, h, Bool.false_eq_true, if_false, hscan, List.nil_append]
    rw [count_above_diag_abs]
    by_cases ht : tol = 0
    · simp [ht]
    · simp [ht]

/-- The theorem `rank_diagmat_counts` at the 2 x 3 matrix with diagonal
`(3, -1)`, `eps = 1/1000` and the default tolerance: the greatest absolute
value is `3`, the threshold `9/1000`, and the rank `2`. -/
theorem rank_diagmat_counts_witness :
    (⟨2, 3, [3, 0, 0, -1, 0, 0]⟩ : Mat ℚ).is_empty = false ∧
    (∀ i, i < min 2 3 →
      realOps.isnan ((⟨2, 3, [3, 0, 0, -1, 0, 0]⟩ : Mat ℚ).at i i) = false) ∧
    rank_diagmat realOps (1 / 1000) ⟨2, 3, [3, 0, 0, -1, 0, 0]⟩ 0 = .ok 2 ∧
    ∃ m : ℚ,
      rank_diagmat realOps (1 / 1000) ⟨2, 3, [3, 0, 0, -1, 0, 0]⟩ 0
        = .ok ((Finset.range (min 2 3)).filter
            (fun i =>
              (if (0 : ℚ) ≠ 0 then 0 else ((max 2 3 : Nat) : ℚ) * m * (1 / 1000))
                < realOps.abs ((⟨2, 3, [3, 0, 0, -1, 0, 0]⟩ : Mat ℚ).at i i))).card := by
  have hne : (⟨2, 3, [3, 0, 0, -1, 0, 0]⟩ : Mat ℚ).is_empty = false := by decide
  have hnan : ∀ i, i < min 2 3 →
      realOps.isnan ((⟨2, 3, [3, 0, 0, -1, 0, 0]⟩ : Mat ℚ).at i i) = false :=
    fun _ _ => rfl
  refine ⟨hne, hnan, ?_, ?_⟩
  · simp [rank_diagmat, rank_diagmat.scan, Mat.is_empty, Mat.n_elem, Mat.at, Mat.memAt,
      realOps, count_above]
    norm_num
  · obtain ⟨m, _, _, h⟩ :=
      (rank_diagmat_counts realOps (1 / 1000) ⟨2, 3, [3, 0, 0, -1, 0, 0]⟩ 0).2 hne hnan
    exact ⟨m, by simpa using h⟩

/-! ## The SVD path of `rank` -/

theorem map_getD_range (s : List ℚ) :
    (List.range s.length).map (fun i => s.getD i 0) = s := by
  apply List.ext_getElem
  · simp
  · intro i h1 h2
    simp [List.getD_eq_getElem?_getD, List.getElem?_eq_getElem h2]

/-- Counting the entries of a list above a threshold is counting the indices
at which the entry is above it. -/
theorem count_above_eq_card (s : List ℚ) (t : ℚ) :
    count_above s t = ((Finset.range s.length).filter (fun i => t < s.getD i 0)).card := by
  rw [count_above_eq_countP, card_filter_range]
  conv_lhs => rw [← map_getD_range s]
  rw [List.countP_map]
  rfl

/-- The SVD path of `rank` in exact arithmetic: for a non-empty matrix that is
not a `diagmat` expression, not diagonal, and not symmetric (real) /
hermitian (complex): when `svd_dc` succeeds with singular values `s`, the
result is the number of indices `i` with `s[i] > t`, where `t` is `tol` when
`tol ≠ 0` and `max(n_rows, n_cols) * s[0] * eps` when `tol = 0` (for an empty
`s` nothing is counted); when `svd_dc` fails, the runtime error
"rank(): svd failed" is raised. -/
theorem exact_rank_svd_count {eT : Type} [Inhabited eT] [DecidableEq eT] [Zero eT]
    (E : ElemOps eT) (X : Externals eT) (eps : ℚ) (A : Mat eT) (tol : ℚ)
    (hne : A.is_empty = false) (hd : A.is_diagmat = false)
    (hs : E.is_cx = false → A.is_symmetric = false)
    (hh : E.is_cx = true → A.is_hermitian E.conj = false) :
    (∀ s, X.svd_dc A = some s →
      rank E X eps false A tol
        = .ok ((Finset.range s.length).filter
            (fun i =>
              (if tol ≠ 0 then tol else (max A.n_rows A.n_cols : ℚ) * s.getD 0 0 * eps)
                < s.getD i 0)).card) ∧
    (X.svd_dc A = none →
      rank E X eps false A tol = .error (.runtime_error "rank(): svd failed")) := by
  have hsym : (!E.is_cx && A.is_symmetric) = false := by
    cases hc : E.is_cx
    · simp [hs hc]
    · simp
  have hher : (E.is_cx && A.is_hermitian E.conj) = false := by
    cases hc : E.is_cx
    · simp
    · simp [hh hc]
  constructor
  · intro s hsvd
    simp only [rank, hne, hd, hsym, hher, hsvd, Bool.false_eq_true, if_false,
      Bool.or_self]
    rw [count_above_eq_card]
    by_cases ht : tol = 0
    · cases s with
      | nil => simp
      | cons x xs => simp [ht]
    · simp [ht]
  · intro hsvd
    simp only [rank, hne, hd, hsym, hher, hsvd, Bool.false_eq_true, if_false,
      Bool.or_self]

/-- The theorem `exact_rank_svd_count` at `skew2`, whose singular values are
`2` and `1`, with tolerance `3/2`: one singular value is above it. -/
theorem exact_rank_svd_count_example :
    rank realOps refExternals (1 / 1000) false skew2 (3 / 2)
      = .ok ((Finset.range 2).filter
          (fun i => (3 / 2 : ℚ) < ([2, 1] : List ℚ).getD i 0)).card ∧
    ((Finset.range 2).filter (fun i => (3 / 2 : ℚ) < ([2, 1] : List ℚ).getD i 0)).card = 1 := by
  have h := (exact_rank_svd_count realOps refExternals (1 / 1000) skew2 (3 / 2)
    (by decide) (by decide) (fun _ => by decide) (fun h => by simp [realOps] at h)).1
      [2, 1] (by simp [refExternals])
  constructor
  · simpa using h
  · rw [card_filter_range]
    simp [List.range_succ]
    norm_num

/-! ## `rank_sym` -/

/-- What `rank_sym` computes for a non-empty square matrix on which `eig_sym`
succeeds with eigenvalues `v`, for a tolerance `tol ≠ 0`: the number of
eigenvalues that are themselves above `tol`; no absolute value is taken. -/
theorem rank_sym_counts_signed {eT : Type} (X : Externals eT) (eps : ℚ) (A : Mat eT)
    (tol : ℚ) (v : List ℚ) (hsq : A.is_square = true) (hne : A.is_empty = false)
    (hv : X.eig_sym A = some v) (ht : tol ≠ 0) :
    rank_sym X eps A tol
      = .ok ((Finset.range v.length).filter (fun i => tol < v.getD i 0)).card := by
  simp only [rank_sym, hsq, hne, hv, ht, false_and, if_false, Bool.false_eq_true,
    beq_iff_eq, Bool.true_eq_false]
  rw [count_above_eq_card]

/-- The numbers `-1` and `1` are eigenvalues of `swap2`, with eigenvectors
`(1, -1)` and `(1, 1)`. -/
theorem swap2_eigen :
    (∀ r, r < 2 → swap2.at r 0 * 1 + swap2.at r 1 * (-1) = (-1) * ([1, -1] : List ℚ).getD r 0) ∧
    (∀ r, r < 2 → swap2.at r 0 * 1 + swap2.at r 1 * 1 = 1 * ([1, 1] : List ℚ).getD r 0) := by
  constructor <;> intro r hr <;> interval_cases r <;>
    simp [swap2, Mat.at, Mat.memAt]

/-- C3, evaluated: on `swap2` (eigenvalues `-1` and `1`) with `tol = 1/2`,
`rank_sym` returns `1`, and so does `rank`, while two eigenvalues have an
absolute value above `tol`; `rank_diagmat` on the diagonal matrix with the
same eigenvalues returns `2`. -/
theorem rank_sym_skips_negative_eigenvalue :
    refExternals.eig_sym swap2 = some [-1, 1] ∧
    rank_sym refExternals (1 / 1000) swap2 (1 / 2) = .ok 1 ∧
    rank realOps refExternals (1 / 1000) false swap2 (1 / 2) = .ok 1 ∧
    ((Finset.range 2).filter
      (fun i => (1 / 2 : ℚ) < |([-1, 1] : List ℚ).getD i 0|)).card = 2 ∧
    rank_diagmat realOps (1 / 1000) ⟨2, 2, [-1, 0, 0, 1]⟩ (1 / 2) = .ok 2 := by
  have hsym : rank_sym refExternals (1 / 1000) swap2 (1 / 2) = .ok 1 := by
    rw [rank_sym_counts_signed refExternals _ swap2 _ [-1, 1] (by decide) (by decide)
      (by simp [refExternals]) (by norm_num)]
    rw [card_filter_range]
    simp [List.range_succ]
    norm_num
  have hrank : rank realOps refExternals (1 / 1000) false swap2 (1 / 2)
      = rank_sym refExternals (1 / 1000) swap2 (1 / 2) := by
    have he : swap2.is_empty = false := by decide
    have hd : swap2.is_diagmat = false := by decide
    have hs : swap2.is_symmetric = true := by decide
    simp [rank, he, hd, hs, realOps]
  refine ⟨by simp [refExternals], hsym, hrank.trans hsym, ?_, ?_⟩
  · rw [card_filter_range]
    simp [List.range_succ]
    norm_num
  · simp [rank_diagmat, rank_diagmat.scan, Mat.is_empty, Mat.n_elem, Mat.at, Mat.memAt,
      realOps, count_above]
    norm_num

/-! ## The dispatch of `rank` -/

/-- C4. `rank(X, tol)` chooses its method in a fixed order. An empty matrix
has rank `0`, whatever the outside routines are. A non-empty diagonal matrix
gets `rank_diagmat(A, tol)`, symmetric or not. A non-empty matrix that is not
diagonal and is symmetric (real element type) or hermitian (complex element
type) gets `rank_sym(A, tol)`. In each of these cases the result does not
depend on `svd_dc`. The expression is taken to be well-formed: a `diagmat`
expression evaluates to a diagonal matrix. -/
theorem rank_dispatch {eT : Type} [Inhabited eT] [DecidableEq eT] [Zero eT]
    (E : ElemOps eT) (X : Externals eT) (eps : ℚ) (is_op_diagmat : Bool)
    (A : Mat eT) (tol : ℚ) (hop : is_op_diagmat = true → A.is_diagmat = true) :
    (A.is_empty = true → rank E X eps is_op_diagmat A tol = .ok 0) ∧
    (A.is_empty = false → A.is_diagmat = true →
      rank E X eps is_op_diagmat A tol = rank_diagmat E eps A tol) ∧
    (A.is_empty = false → A.is_diagmat = false →
      ((E.is_cx = false ∧ A.is_symmetric = true) ∨
        (E.is_cx = true ∧ A.is_hermitian E.conj = true)) →
      rank E X eps is_op_diagmat A tol = rank_sym X eps A tol) ∧
    ((A.is_empty = true ∨ A.is_diagmat = true ∨
        (E.is_cx = false ∧ A.is_symmetric = true) ∨
        (E.is_cx = true ∧ A.is_hermitian E.conj = true)) →
      ∀ svd : Mat eT → Option (List ℚ),
        rank E { X with svd_dc := svd } eps is_op_diagmat A tol
          = rank E X eps is_op_diagmat A tol) := by
  have hopf : A.is_diagmat = false → is_op_diagmat = false := by
    intro h
    cases ho : is_op_diagmat
    · rfl
    · rw [hop ho] at h; exact absurd h (by decide)
  refine ⟨?_, ?_, ?_, ?_⟩
  · intro h
    simp [rank, h]
  · intro h hd
    simp [rank, h, hd]
  · intro h hd hsh
    rcases hsh with ⟨hc, hs⟩ | ⟨hc, hs⟩
    · simp [rank, h, hd, hopf hd, hc, hs]
    · simp [rank, h, hd, hopf hd, hc, hs]
  · intro hcase svd
    by_cases he : A.is_empty = true
    · simp [rank, he]
    · have he : A.is_empty = false := by simpa using he
      by_cases hd : A.is_diagmat = true
      · simp [rank, he, hd]
      · have hd : A.is_diagmat = false := by simpa using hd
        rcases hcase with h | h | ⟨hc, hs⟩ | ⟨hc, hs⟩
        · rw [he] at h; exact absurd h (by decide)
        · rw [hd] at h; exact absurd h (by decide)
        · simp [rank, rank_sym, he, hd, hopf hd, hc, hs]
        · simp [rank, rank_sym, he, hd, hopf hd, hc, hs]

/-- The theorem `rank_dispatch` at three real matrices: the empty 0 x 0
matrix, the diagonal (and symmetric) matrix `diag(-1, 1)`, and the symmetric
non-diagonal matrix `swap2`. -/
theorem rank_dispatch_witness :
    rank realOps refExternals (1 / 1000) false ⟨0, 0, []⟩ 0 = .ok 0 ∧
    ((⟨2, 2, [-1, 0, 0, 1]⟩ : Mat ℚ).is_symmetric = true ∧
      rank realOps refExternals (1 / 1000) true ⟨2, 2, [-1, 0, 0, 1]⟩ (1 / 2)
        = rank_diagmat realOps (1 / 1000) ⟨2, 2, [-1, 0, 0, 1]⟩ (1 / 2)) ∧
    rank realOps refExternals (1 / 1000) false swap2 (1 / 2)
        = rank_sym refExternals (1 / 1000) swap2 (1 / 2) ∧
    (∀ svd : Mat ℚ → Option (List ℚ),
      rank realOps { refExternals with svd_dc := svd } (1 / 1000) false swap2 (1 / 2)
        = rank realOps refExternals (1 / 1000) false swap2 (1 / 2)) :=
  ⟨(rank_dispatch realOps refExternals (1 / 1000) false ⟨0, 0, []⟩ 0
      (fun h => absurd h (by decide))).1 (by decide),
   ⟨by decide,
    (rank_dispatch realOps refExternals (1 / 1000) true ⟨2, 2, [-1, 0, 0, 1]⟩ (1 / 2)
      (fun _ => by decide)).2.1 (by decide) (by decide)⟩,
   (rank_dispatch realOps refExternals (1 / 1000) false swap2 (1 / 2)
      (fun h => absurd h (by decide))).2.2.1 (by decide) (by decide)
      (Or.inl ⟨rfl, by decide⟩),
   (rank_dispatch realOps refExternals (1 / 1000) false swap2 (1 / 2)
      (fun h => absurd h (by decide))).2.2.2
      (Or.inr (Or.inr (Or.inl ⟨rfl, by decide⟩)))⟩

/-! ## The diagonal path of `op_inv_spd::apply_direct` -/

theorem Mat.memAt_memSet {eT : Type} [Inhabited eT] (A : Mat eT) (k idx : Nat) (v : eT) :
    (A.memSet k v).memAt idx
      = if idx = k ∧ k < A.mem.length then v else A.memAt idx := by
  unfold Mat.memSet Mat.memAt
  simp only [List.getD_eq_getElem?_getD, List.getElem?_set]
  by_cases h : k = idx
  · subst h
    by_cases hk : k < A.mem.length
    · simp [hk]
    · simp [hk, List.getElem?_eq_none (not_lt.mp hk)]
  · have h2 : ¬ idx = k := fun e => h e.symm
    simp [h, h2]

theorem diag_index_lt {i N : Nat} (h : i < N) : i + i * N < N * N := by
  calc i + i * N < N + i * N := by omega
    _ = (i + 1) * N := by ring
    _ ≤ N * N := Nat.mul_le_mul_right N h

theorem diag_index_inj {i j N : Nat} (h : i + i * N = j + j * N) : i = j := by
  rcases Nat.lt_trichotomy i j with hlt | heq | hgt
  · have : i * N + N ≤ j * N := by
      calc i * N + N = (i + 1) * N := by ring
        _ ≤ j * N := Nat.mul_le_mul_right N hlt
    omega
  · exact heq
  · have : j * N + N ≤ i * N := by
      calc j * N + N = (j + 1) * N := by ring
        _ ≤ i * N := Nat.mul_le_mul_right N hgt
    omega

/-- The loop of the diagonal path, started at index `i` on an `N x N` memory:
the dimensions are kept; the status is `true` exactly when every diagonal
entry from `i` on has a positive real part; and then each such entry has been
replaced by its reciprocal, every other element being as before. -/
theorem diag_loop_spec {eT : Type} [Inhabited eT] (E : ElemOps eT) (N : Nat) (k i : Nat)
    (out : Mat eT) (hki : i + k = N) (hlen : out.mem.length = N * N) :
    let r := op_inv_spd.apply_direct.diag_loop E N k i out
    (r.2.n_rows = out.n_rows ∧ r.2.n_cols = out.n_cols ∧ r.2.mem.length = out.mem.length) ∧
    (r.1 = true ↔ ∀ j, i ≤ j → j < N → 0 < E.tmp_real (out.memAt (j + j * N))) ∧
    (r.1 = true → ∀ j, i ≤ j → j < N →
      r.2.memAt (j + j * N) = E.of_pod (1 / E.tmp_real (out.memAt (j + j * N)))) ∧
    (∀ idx, (∀ j, i ≤ j → j < N → idx ≠ j + j * N) → r.2.memAt idx = out.memAt idx) := by
  induction k generalizing i out with
  | zero =>
    have hiN : i = N := by omega
    simp only [op_inv_spd.apply_direct.diag_loop]
    refine ⟨⟨trivial, trivial, trivial⟩, ?_, ?_, ?_⟩
    · constructor
      · intro _ j h1 h2; omega
      · intro _; trivial
    · intro _ j h1 h2; omega
    · intro idx _; trivial
  | succ k ih =>
    have hiN : i < N := by omega
    by_cases hpos : E.tmp_real (out.memAt (i + i * N)) ≤ 0
    · simp only [op_inv_spd.apply_direct.diag_loop, hpos, if_true]
      refine ⟨⟨trivial, trivial, trivial⟩, ?_, ?_, ?_⟩
      · constructor
        · intro h; exact absurd h (by decide)
        · intro h
          exact absurd (h i (le_refl _) hiN) (not_lt.mpr hpos)
      · intro h; exact absurd h (by decide)
      · intro idx _; trivial
    · simp only [op_inv_spd.apply_direct.diag_loop, hpos, if_false]
      have hpos2 : 0 < E.tmp_real (out.memAt (i + i * N)) := not_le.mp hpos
      have hidx : i + i * N < out.mem.length := by rw [hlen]; exact diag_index_lt hiN
      have hlen2 : (out.memSet (i + i * N)
          (E.of_pod (1 / E.tmp_real (out.memAt (i + i * N))))).mem.length = N * N := by
        simp [Mat.memSet, hlen]
      have hread : ∀ idx, idx ≠ i + i * N →
          (out.memSet (i + i * N)
            (E.of_pod (1 / E.tmp_real (out.memAt (i + i * N))))).memAt idx
            = out.memAt idx := by
        intro idx hne
        rw [Mat.memAt_memSet]
        simp [hne]
      have hdiag : ∀ j, i + 1 ≤ j → j + j * N ≠ i + i * N := fun j h1 e => by
        have := diag_index_inj e; omega
      obtain ⟨hdim, hstat, hinv, hkeep⟩ := ih (i + 1) _ (by omega) hlen2
      refine ⟨?_, ?_, ?_, ?_⟩
      · obtain ⟨h1, h2, h3⟩ := hdim
        refine ⟨h1, h2, ?_⟩
        rw [h3]; simp [Mat.memSet]
      · rw [hstat]
        constructor
        · intro h j h1 h2
          rcases Nat.eq_or_lt_of_le h1 with heq | hlt
          · subst heq; exact hpos2
          · rw [← hread _ (hdiag j hlt)]; exact h j hlt h2
        · intro h j h1 h2
          rw [hread _ (hdiag j h1)]; exact h j (by omega) h2
      · intro hr j h1 h2
        rcases Nat.eq_or_lt_of_le h1 with heq | hlt
        · subst heq
          rw [hkeep _ (fun j' h1' _ => (hdiag j' h1').symm), Mat.memAt_memSet]
          simp [hidx]
        · rw [hinv hr j hlt h2, hread _ (hdiag j hlt)]
      · intro idx hne
        rw [hkeep idx (fun j h1 h2 => hne j (by omega) h2)]
        exact hread idx (hne i (le_refl _) hiN)

theorem Mat.is_diagmat_iff {eT : Type} [Inhabited eT] [DecidableEq eT] [Zero eT]
    (A : Mat eT) :
    A.is_diagmat = true
      ↔ ∀ r c, r < A.n_rows → c < A.n_cols → r ≠ c → A.at r c = 0 := by
  simp only [Mat.is_diagmat, List.all_eq_true, List.mem_range, Bool.or_eq_true,
    decide_eq_true_eq]
  constructor
  · intro h r c hr hc hne
    rcases h c hc r hr with h1 | h1
    · exact absurd h1 hne
    · exact h1
  · intro h c hc r hr
    by_cases hrc : r = c
    · exact Or.inl hrc
    · exact Or.inr (h r c hr hc hrc)

/-- When the tiny-matrix attempt is not made, a square input goes straight to
the main part of `apply_direct`: no exception, and status and output are
those of the main part. -/
theorem apply_direct_of_not_tiny {eT : Type} [Inhabited eT] [DecidableEq eT] [Zero eT]
    (E : ElemOps eT) (X : Externals eT) (debug : Bool) (eps : ℚ)
    (is_op_diagmat has_user_flags : Bool) (expr : Mat eT) (flags : Nat)
    (hsq : expr.is_square = true)
    (h : ((has_user_flags && inv_opts.test flags inv_opts.flag_tiny)
          && decide (min expr.n_rows expr.n_cols ≤ 4) && !E.is_cx) = false) :
    (op_inv_spd.apply_direct E X debug eps is_op_diagmat has_user_flags expr flags).status
      = .ok (op_inv_spd.apply_direct.main E X eps is_op_diagmat
          (min expr.n_rows expr.n_cols) expr).1 ∧
    (op_inv_spd.apply_direct E X debug eps is_op_diagmat has_user_flags expr flags).out
      = (op_inv_spd.apply_direct.main E X eps is_op_diagmat
          (min expr.n_rows expr.n_cols) expr).2 := by
  have hdbg : (debug && (expr.is_square == false)) = false := by simp [hsq]
  unfold op_inv_spd.apply_direct
  simp only [hdbg, h, Bool.false_eq_true, if_false, and_self]

/-- The three ways in which the tiny-matrix path is not taken, for a real
square matrix: status and output are those of the main part. -/
theorem apply_direct_of_tiny_unset (X : Externals ℚ) (debug : Bool) (eps : ℚ)
    (is_op_diagmat has_user_flags : Bool) (flags : Nat) (A : Mat ℚ)
    (hsq : A.is_square = true)
    (hnotiny : inv_opts.test flags inv_opts.flag_tiny = false ∨ has_user_flags = false
      ∨ 4 < A.n_rows) :
    (op_inv_spd.apply_direct realOps X debug eps is_op_diagmat has_user_flags A flags).status
      = .ok (op_inv_spd.apply_direct.main realOps X eps is_op_diagmat
          (min A.n_rows A.n_cols) A).1 ∧
    (op_inv_spd.apply_direct realOps X debug eps is_op_diagmat has_user_flags A flags).out
      = (op_inv_spd.apply_direct.main realOps X eps is_op_diagmat
          (min A.n_rows A.n_cols) A).2 := by
  have hcols : A.n_cols = A.n_rows := by
    simp only [Mat.is_square, beq_iff_eq] at hsq; exact hsq.symm
  have hmin : min A.n_rows A.n_cols = A.n_rows := by rw [hcols]; exact min_self _
  have hgate : ((has_user_flags && inv_opts.test flags inv_opts.flag_tiny)
      && decide (min A.n_rows A.n_cols ≤ 4) && !realOps.is_cx) = false := by
    rw [hmin]
    rcases hnotiny with h | h | h
    · simp [h]
    · simp [h]
    · have : ¬ A.n_rows ≤ 4 := by omega
      simp [this]
  exact apply_direct_of_not_tiny realOps X debug eps is_op_diagmat has_user_flags A flags
    hsq hgate

/-- C5. `op_inv_spd::apply_direct` on a real, square, diagonal `N x N` matrix
`A` in exact arithmetic, when the tiny-matrix path is not taken (tiny flag
unset, or `has_user_flags` false, or `N > 4`): the call returns, and returns
`true` exactly when every diagonal entry is strictly positive; when it returns
`true` the output is the `N x N` diagonal matrix with `out(i,i) = 1 / A(i,i)`
and zero elsewhere, and `A * out` is the identity. -/
theorem op_inv_spd_apply_direct_diag (X : Externals ℚ) (debug : Bool) (eps : ℚ)
    (is_op_diagmat has_user_flags : Bool) (flags : Nat) (A : Mat ℚ)
    (hwf : A.WF) (hsq : A.is_square = true) (hdiag : A.is_diagmat = true)
    (hnotiny : inv_opts.test flags inv_opts.flag_tiny = false ∨ has_user_flags = false
      ∨ 4 < A.n_rows) :
    ((op_inv_spd.apply_direct realOps X debug eps is_op_diagmat has_user_flags A flags).status
        = .ok true ∨
      (op_inv_spd.apply_direct realOps X debug eps is_op_diagmat has_user_flags A flags).status
        = .ok false) ∧
    ((op_inv_spd.apply_direct realOps X debug eps is_op_diagmat has_user_flags A flags).status
        = .ok true ↔ ∀ i, i < A.n_rows → 0 < A.at i i) ∧
    ((op_inv_spd.apply_direct realOps X debug eps is_op_diagmat has_user_flags A flags).status
        = .ok true →
      (op_inv_spd.apply_direct realOps X debug eps is_op_diagmat has_user_flags A flags).out.n_rows
        = A.n_rows ∧
      (op_inv_spd.apply_direct realOps X debug eps is_op_diagmat has_user_flags A flags).out.n_cols
        = A.n_rows ∧
      (∀ i j, i < A.n_rows → j < A.n_rows →
        (op_inv_spd.apply_direct realOps X debug eps is_op_diagmat has_user_flags A
          flags).out.at i j = if i = j then 1 / A.at i i else 0) ∧
      (∀ i j, i < A.n_rows → j < A.n_rows →
        (∑ k in Finset.range A.n_rows,
          A.at i k *
            (op_inv_spd.apply_direct realOps X debug eps is_op_diagmat has_user_flags A
              flags).out.at k j) = if i = j then 1 else 0)) := by
  have hcols : A.n_cols = A.n_rows := by
    simp only [Mat.is_square, beq_iff_eq] at hsq; exact hsq.symm
  have hmin : min A.n_rows A.n_cols = A.n_rows := by rw [hcols]; exact min_self _
  have hlen : A.mem.length = A.n_rows * A.n_rows := by
    have := hwf; unfold Mat.WF at this; rw [this, hcols]
  obtain ⟨hst, hout⟩ := apply_direct_of_tiny_unset X debug eps is_op_diagmat
    has_user_flags flags A hsq hnotiny
  have hmain : op_inv_spd.apply_direct.main realOps X eps is_op_diagmat
      (min A.n_rows A.n_cols) A
      = op_inv_spd.apply_direct.diag_loop realOps A.n_rows A.n_rows 0 A := by
    rw [hmin]
    simp [op_inv_spd.apply_direct.main, hdiag, realOps]
  rw [hst, hout, hmain]
  obtain ⟨⟨hr, hc, _⟩, hstat, hinv, hkeep⟩ :=
    diag_loop_spec realOps A.n_rows A.n_rows 0 A (by omega) hlen
  have hpos_iff : (op_inv_spd.apply_direct.diag_loop realOps A.n_rows A.n_rows 0 A).1 = true
      ↔ ∀ i, i < A.n_rows → 0 < A.at i i := by
    rw [hstat]
    constructor
    · intro h i hi; exact h i (Nat.zero_le _) hi
    · intro h j _ hj; exact h j hj
  have hzero := (Mat.is_diagmat_iff A).mp hdiag
  refine ⟨?_, ?_, ?_⟩
  · cases (op_inv_spd.apply_direct.diag_loop realOps A.n_rows A.n_rows 0 A).1
    · exact Or.inr rfl
    · exact Or.inl rfl
  · rw [← hpos_iff]
    constructor
    · intro h; exact Except.ok.inj h
    · intro h; rw [h]
  · intro h
    have hb : (op_inv_spd.apply_direct.diag_loop realOps A.n_rows A.n_rows 0 A).1 = true :=
      Except.ok.inj h
    have hat : ∀ i j, i < A.n_rows → j < A.n_rows →
        (op_inv_spd.apply_direct.diag_loop realOps A.n_rows A.n_rows 0 A).2.at i j
          = if i = j then 1 / A.at i i else 0 := by
      intro i j hi hj
      unfold Mat.at
      rw [hr]
      by_cases hij : i = j
      · subst hij
        rw [hinv hb i (Nat.zero_le _) hi]
        simp [realOps]
      · rw [hkeep _ (fun j' _ _ e => by
          have h1 : i < A.n_rows := hi
          have e1 : i = j' ∧ j = j' := by
            have hj' : j' < A.n_rows := by assumption
            constructor
            · have := congrArg (· % A.n_rows) e
              simp only [Nat.add_mul_mod_self_right] at this
              rwa [Nat.mod_eq_of_lt hi, Nat.mod_eq_of_lt hj'] at this
            · have := congrArg (· / A.n_rows) e
              simp only at this
              rwa [Nat.add_mul_div_right _ _ (by omega), Nat.add_mul_div_right _ _ (by omega),
                Nat.div_eq_of_lt hi, Nat.div_eq_of_lt hj', Nat.zero_add, Nat.zero_add] at this
          exact hij (e1.1.trans e1.2.symm))]
        have := hzero i j hi (by rw [hcols]; exact hj) hij
        simp only [hij, if_false]
        exact this
    refine ⟨hr, by rw [hc, hcols], hat, ?_⟩
    intro i j hi hj
    rw [Finset.sum_eq_single i]
    · rw [hat i j hi hj]
      by_cases hij : i = j
      · subst hij
        have hne : A.at i i ≠ 0 := ne_of_gt ((hpos_iff.mp hb) i hi)
        simp [hne]
      · simp [hij]
    · intro k hk hki
      have hk' : k < A.n_rows := Finset.mem_range.mp hk
      rw [hzero i k hi (by rw [hcols]; exact hk') (fun e => hki e.symm)]
      simp
    · intro h'
      exact absurd (Finset.mem_range.mpr hi) h'

/-- The theorem `op_inv_spd_apply_direct_diag` at `diag(2, 4)` without flags:
the call returns `true`, with `out(0,0) = 1/2`, `out(1,1) = 1/4`, and
`out(1,0) = 0`. -/
theorem op_inv_spd_apply_direct_diag_witness :
    (⟨2, 2, [2, 0, 0, 4]⟩ : Mat ℚ).WF ∧
    (⟨2, 2, [2, 0, 0, 4]⟩ : Mat ℚ).is_square = true ∧
    (⟨2, 2, [2, 0, 0, 4]⟩ : Mat ℚ).is_diagmat = true ∧
    inv_opts.test 0 inv_opts.flag_tiny = false ∧
    (op_inv_spd.apply_direct realOps refExternals true (1 / 1000) false true
      ⟨2, 2, [2, 0, 0, 4]⟩ 0).status = .ok true ∧
    (op_inv_spd.apply_direct realOps refExternals true (1 / 1000) false true
      ⟨2, 2, [2, 0, 0, 4]⟩ 0).out.at 0 0 = 1 / 2 ∧
    (op_inv_spd.apply_direct realOps refExternals true (1 / 1000) false true
      ⟨2, 2, [2, 0, 0, 4]⟩ 0).out.at 1 1 = 1 / 4 ∧
    (op_inv_spd.apply_direct realOps refExternals true (1 / 1000) false true
      ⟨2, 2, [2, 0, 0, 4]⟩ 0).out.at 1 0 = 0 := by
  have h := op_inv_spd_apply_direct_diag refExternals true (1 / 1000) false true 0
    ⟨2, 2, [2, 0, 0, 4]⟩ (by decide) (by decide) (by decide) (Or.inl (by decide))
  have hpos : ∀ i, i < 2 → (0 : ℚ) < (⟨2, 2, [2, 0, 0, 4]⟩ : Mat ℚ).at i i := by
    intro i hi
    interval_cases i <;> simp [Mat.at, Mat.memAt]
  have hst := h.2.1.mpr hpos
  obtain ⟨_, _, hat, _⟩ := h.2.2 hst
  refine ⟨by decide, by decide, by decide, by decide, hst, ?_, ?_, ?_⟩
  · rw [hat 0 0 (by decide) (by decide)]; simp [Mat.at, Mat.memAt]
  · rw [hat 1 1 (by decide) (by decide)]; simp [Mat.at, Mat.memAt]
  · rw [hat 1 0 (by decide) (by decide)]; simp

/-! ## Positive definiteness and the tiny-matrix path -/

/-- On the tiny-matrix path `apply_direct` hands the matrix to
`op_inv_gen::apply_tiny` and, when that succeeds, returns `true` with what it
left. -/
theorem apply_direct_of_tiny_ok {eT : Type} [Inhabited eT] [DecidableEq eT] [Zero eT]
    (E : ElemOps eT) (X : Externals eT) (debug : Bool) (eps : ℚ)
    (is_op_diagmat : Bool) (expr : Mat eT) (flags : Nat)
    (hsq : expr.is_square = true) (hcx : E.is_cx = false)
    (htiny : inv_opts.test flags inv_opts.flag_tiny = true)
    (hN : min expr.n_rows expr.n_cols ≤ 4)
    (hok : (X.op_inv_gen_apply_tiny expr).1 = true) :
    (op_inv_spd.apply_direct E X debug eps is_op_diagmat true expr flags).status = .ok true ∧
    (op_inv_spd.apply_direct E X debug eps is_op_diagmat true expr flags).out
      = (X.op_inv_gen_apply_tiny expr).2 := by
  have hdbg : (debug && (expr.is_square == false)) = false := by simp [hsq]
  have hgate : ((true && inv_opts.test flags inv_opts.flag_tiny)
      && decide (min expr.n_rows expr.n_cols ≤ 4) && !E.is_cx) = true := by
    simp [htiny, hN, hcx]
  unfold op_inv_spd.apply_direct
  simp only [hdbg, hgate, Bool.false_eq_true, if_false, if_true, op_inv_spd.apply_tiny, hok,
    and_self]

/-- On the tiny-matrix path, when `op_inv_gen::apply_tiny` fails,
`apply_direct` goes on with the main part on the matrix that was left. -/
theorem apply_direct_of_tiny_failed {eT : Type} [Inhabited eT] [DecidableEq eT] [Zero eT]
    (E : ElemOps eT) (X : Externals eT) (debug : Bool) (eps : ℚ)
    (is_op_diagmat : Bool) (expr : Mat eT) (flags : Nat)
    (hsq : expr.is_square = true) (hcx : E.is_cx = false)
    (htiny : inv_opts.test flags inv_opts.flag_tiny = true)
    (hN : min expr.n_rows expr.n_cols ≤ 4)
    (hfail : (X.op_inv_gen_apply_tiny expr).1 = false) :
    (op_inv_spd.apply_direct E X debug eps is_op_diagmat true expr flags).status
      = .ok (op_inv_spd.apply_direct.main E X eps is_op_diagmat
          (min expr.n_rows expr.n_cols) (X.op_inv_gen_apply_tiny expr).2).1 ∧
    (op_inv_spd.apply_direct E X debug eps is_op_diagmat true expr flags).out
      = (op_inv_spd.apply_direct.main E X eps is_op_diagmat
          (min expr.n_rows expr.n_cols) (X.op_inv_gen_apply_tiny expr).2).2 := by
  have hdbg : (debug && (expr.is_square == false)) = false := by simp [hsq]
  have hgate : ((true && inv_opts.test flags inv_opts.flag_tiny)
      && decide (min expr.n_rows expr.n_cols ≤ 4) && !E.is_cx) = true := by
    simp [htiny, hN, hcx]
  unfold op_inv_spd.apply_direct
  simp only [hdbg, hgate, Bool.false_eq_true, if_false, if_true, op_inv_spd.apply_tiny, hfail,
    and_self]

/-- C6, refuted as stated: with `inv_opts::tiny`, the 1 x 1 matrix `[-1]`,
which is square and diagonal with a non-positive diagonal entry, is reported
as successfully inverted (status `true`, output `[-1]`); a debug build only
warns. -/
theorem op_inv_spd_tiny_accepts_nonpositive :
    (⟨1, 1, [-1]⟩ : Mat ℚ).WF ∧
    (⟨1, 1, [-1]⟩ : Mat ℚ).is_square = true ∧
    (⟨1, 1, [-1]⟩ : Mat ℚ).is_diagmat = true ∧
    (⟨1, 1, [-1]⟩ : Mat ℚ).at 0 0 ≤ 0 ∧
    (op_inv_spd.apply_direct realOps refExternals true (1 / 1000) false true
      ⟨1, 1, [-1]⟩ inv_opts.flag_tiny).status = .ok true ∧
    (op_inv_spd.apply_direct realOps refExternals true (1 / 1000) false true
      ⟨1, 1, [-1]⟩ inv_opts.flag_tiny).out = ⟨1, 1, [-1]⟩ ∧
    (op_inv_spd.apply_direct realOps refExternals true (1 / 1000) false true
      ⟨1, 1, [-1]⟩ inv_opts.flag_tiny).warnings
      = ["inv_sympd(): given matrix is not positive definite"] := by
  have hsmall : op_inv_gen.apply_tiny_small ⟨1, 1, [-1]⟩ = (true, ⟨1, 1, [-1]⟩) := by
    simp [op_inv_gen.apply_tiny_small, Mat.memAt, Mat.memSet]
  have hok : (refExternals.op_inv_gen_apply_tiny ⟨1, 1, [-1]⟩)
      = (true, ⟨1, 1, [-1]⟩) := hsmall
  obtain ⟨h1, h2⟩ := apply_direct_of_tiny_ok realOps refExternals true (1 / 1000) false
    ⟨1, 1, [-1]⟩ inv_opts.flag_tiny (by decide) rfl (by decide) (by decide) (by rw [hok])
  refine ⟨by decide, by decide, by decide, by simp [Mat.at, Mat.memAt], h1, ?_, ?_⟩
  · rw [h2, hok]
  · simp [op_inv_spd.apply_direct, op_inv_spd.apply_tiny, op_inv_spd.apply_tiny.diag_pass,
      op_inv_spd.apply_tiny.lower_pass, hsmall, realOps, inv_opts.test, inv_opts.flag_tiny,
      inv_opts.flag_likely_sympd, inv_opts.flag_no_sympd, Mat.is_square, Mat.memAt,
      arma_debug_warn, refExternals, Mat.is_symmetric, Mat.at, List.range_succ]

/-- The first warning loop of `apply_tiny` keeps a flag once set, and sets it
at a diagonal entry whose real part is not positive. -/
theorem apply_tiny_diag_pass_fold {eT : Type} [Inhabited eT] (E : ElemOps eT) (out : Mat eT)
    (N : Nat) (l : List Nat) (st : Bool × ℚ)
    (h : st.1 = true ∨ ∃ i, i ∈ l ∧ E.tmp_real (out.memAt (i + i * N)) ≤ 0) :
    (l.foldl
      (fun (st : Bool × ℚ) i =>
        let out_ii_real := E.tmp_real (out.memAt (i + i * N))
        (if out_ii_real ≤ 0 then true else st.1,
         if out_ii_real > st.2 then out_ii_real else st.2))
      st).1 = true := by
  induction l generalizing st with
  | nil =>
    rcases h with h | ⟨i, hi, _⟩
    · exact h
    · exact absurd hi (List.not_mem_nil i)
  | cons j js ih =>
    rw [List.foldl_cons]
    apply ih
    by_cases hj : E.tmp_real (out.memAt (j + j * N)) ≤ 0
    · left; simp only [hj, if_true]
    · rcases h with h | ⟨i, hi, hle⟩
      · left; simp only [hj, if_false]; exact h
      · rcases List.mem_cons.mp hi with rfl | hi'
        · exact absurd hle hj
        · right; exact ⟨i, hi', hle⟩

/-- A diagonal entry whose real part is not positive sets `print_warning` in
the first warning loop of `apply_tiny`. -/
theorem apply_tiny_diag_pass_flag {eT : Type} [Inhabited eT] (E : ElemOps eT) (out : Mat eT)
    (N : Nat) (h : ∃ i, i < N ∧ E.tmp_real (out.memAt (i + i * N)) ≤ 0) :
    (op_inv_spd.apply_tiny.diag_pass E out N).1 = true := by
  obtain ⟨i, hi, hle⟩ := h
  unfold op_inv_spd.apply_tiny.diag_pass
  exact apply_tiny_diag_pass_fold E out N (List.range N) (false, 0)
    (Or.inr ⟨i, List.mem_range.mpr hi, hle⟩)

theorem apply_tiny_lower_inner {eT : Type} [Inhabited eT] (E : ElemOps eT) (out : Mat eT)
    (N c : Nat) (max_diag : ℚ) (l : List Nat) :
    l.foldl
      (fun pw r =>
        let abs_val := E.abs (out.memAt (r + c * N))
        if abs_val > max_diag then true else pw)
      true = true := by
  induction l with
  | nil => rfl
  | cons r rs ih =>
    rw [List.foldl_cons]
    by_cases h : E.abs (out.memAt (r + c * N)) > max_diag
    · simp only [h, if_true]; exact ih
    · simp only [h, if_false]; exact ih

/-- The second warning loop of `apply_tiny` keeps `print_warning` once set. -/
theorem apply_tiny_lower_pass_keeps {eT : Type} [Inhabited eT] (E : ElemOps eT)
    (out : Mat eT) (N : Nat) (max_diag : ℚ) :
    op_inv_spd.apply_tiny.lower_pass E out N true max_diag = true := by
  unfold op_inv_spd.apply_tiny.lower_pass
  generalize List.range N = cols
  induction cols with
  | nil => rfl
  | cons c cs ih =>
    rw [List.foldl_cons, apply_tiny_lower_inner]
    exact ih

/-- In a debug build `op_inv_spd::apply_tiny` warns that the matrix is not
positive definite when a diagonal entry has a real part that is not
positive; without debugging it issues no warning. -/
theorem apply_tiny_warnings {eT : Type} [Inhabited eT] (E : ElemOps eT) (X : Externals eT)
    (out : Mat eT) :
    ((∃ i, i < out.n_rows ∧ E.tmp_real (out.memAt (i + i * out.n_rows)) ≤ 0) →
      (op_inv_spd.apply_tiny E X true out).warnings
        = ["inv_sympd(): given matrix is not positive definite"]) ∧
    (op_inv_spd.apply_tiny E X false out).warnings = [] := by
  constructor
  · intro h
    have h1 := apply_tiny_diag_pass_flag E out out.n_rows h
    unfold op_inv_spd.apply_tiny
    simp only [if_true, h1, apply_tiny_lower_pass_keeps, arma_debug_warn]
  · unfold op_inv_spd.apply_tiny
    simp only [Bool.false_eq_true, if_false]

/-- On the tiny-matrix path the warnings of `apply_direct` end with those of
`op_inv_spd::apply_tiny`, whether the attempt succeeds or not; without
debugging there is no warning at all. -/
theorem apply_direct_tiny_warnings {eT : Type} [Inhabited eT] [DecidableEq eT] [Zero eT]
    (E : ElemOps eT) (X : Externals eT) (debug : Bool) (eps : ℚ)
    (is_op_diagmat : Bool) (expr : Mat eT) (flags : Nat)
    (hsq : expr.is_square = true) (hcx : E.is_cx = false)
    (htiny : inv_opts.test flags inv_opts.flag_tiny = true)
    (hN : min expr.n_rows expr.n_cols ≤ 4) :
    (∃ pre, (op_inv_spd.apply_direct E X debug eps is_op_diagmat true expr flags).warnings
      = pre ++ (op_inv_spd.apply_tiny E X debug expr).warnings) ∧
    (debug = false →
      (op_inv_spd.apply_direct E X debug eps is_op_diagmat true expr flags).warnings = []) := by
  have hdbg : (debug && (expr.is_square == false)) = false := by simp [hsq]
  have hgate : ((true && inv_opts.test flags inv_opts.flag_tiny)
      && decide (min expr.n_rows expr.n_cols ≤ 4) && !E.is_cx) = true := by
    simp [htiny, hN, hcx]
  constructor
  · unfold op_inv_spd.apply_direct
    simp only [hdbg, hgate, Bool.false_eq_true, if_false, if_true]
    cases ht : (op_inv_spd.apply_tiny E X debug expr).status
    · simp only [Bool.false_eq_true, if_false]; exact ⟨_, rfl⟩
    · simp only [if_true]; exact ⟨_, rfl⟩
  · intro hd
    subst hd
    have hw := (apply_tiny_warnings E X expr).2
    unfold op_inv_spd.apply_direct
    simp only [hgate, Bool.false_and, Bool.false_eq_true, if_false, if_true, arma_debug_warn,
      hw, List.append_nil]
    cases ht : (op_inv_spd.apply_tiny E X false expr).status
    · simp only [Bool.false_eq_true, if_false, ite_self]; rfl
    · simp only [if_true, ite_self]; rfl

/-- C6, as amended. For a real, square, diagonal matrix `A` with a diagonal
entry `≤ 0` and any flags value: `apply_direct` returns `false` when the
tiny-matrix path is not taken (tiny flag unset, or `has_user_flags` false, or
`N > 4`), and also when the tiny-matrix attempt fails and leaves the matrix
as it was; when the tiny-matrix path is taken and `op_inv_gen::apply_tiny`
succeeds, `apply_direct` returns `true` with what `apply_tiny` left. On the
tiny-matrix path the non-positive diagonal entry only produces a warning: in
a debug build the warning "inv_sympd(): given matrix is not positive
definite" is among those issued, and without debugging no warning is
issued. -/
theorem op_inv_spd_apply_direct_nonpositive (X : Externals ℚ) (debug : Bool) (eps : ℚ)
    (is_op_diagmat has_user_flags : Bool) (flags : Nat) (A : Mat ℚ)
    (hwf : A.WF) (hsq : A.is_square = true) (hdiag : A.is_diagmat = true)
    (hneg : ∃ i, i < A.n_rows ∧ A.at i i ≤ 0) :
    ((inv_opts.test flags inv_opts.flag_tiny = false ∨ has_user_flags = false
        ∨ 4 < A.n_rows) →
      (op_inv_spd.apply_direct realOps X debug eps is_op_diagmat has_user_flags A
        flags).status = .ok false) ∧
    ((inv_opts.test flags inv_opts.flag_tiny = true ∧ has_user_flags = true
        ∧ A.n_rows ≤ 4) →
      ((X.op_inv_gen_apply_tiny A).1 = true →
        (op_inv_spd.apply_direct realOps X debug eps is_op_diagmat has_user_flags A
          flags).status = .ok true ∧
        (op_inv_spd.apply_direct realOps X debug eps is_op_diagmat has_user_flags A
          flags).out = (X.op_inv_gen_apply_tiny A).2) ∧
      (X.op_inv_gen_apply_tiny A = (false, A) →
        (op_inv_spd.apply_direct realOps X debug eps is_op_diagmat has_user_flags A
          flags).status = .ok false) ∧
      (debug = true →
        "inv_sympd(): given matrix is not positive definite"
          ∈ (op_inv_spd.apply_direct realOps X debug eps is_op_diagmat has_user_flags A
              flags).warnings) ∧
      (debug = false →
        (op_inv_spd.apply_direct realOps X debug eps is_op_diagmat has_user_flags A
          flags).warnings = [])) := by
  have hcols : A.n_cols = A.n_rows := by
    simp only [Mat.is_square, beq_iff_eq] at hsq; exact hsq.symm
  have hmin : min A.n_rows A.n_cols = A.n_rows := by rw [hcols]; exact min_self _
  have hlen : A.mem.length = A.n_rows * A.n_rows := by
    have := hwf; unfold Mat.WF at this; rw [this, hcols]
  have hmain : (op_inv_spd.apply_direct.main realOps X eps is_op_diagmat
      (min A.n_rows A.n_cols) A).1 = false := by
    rw [hmin]
    have hm : op_inv_spd.apply_direct.main realOps X eps is_op_diagmat A.n_rows A
        = op_inv_spd.apply_direct.diag_loop realOps A.n_rows A.n_rows 0 A := by
      simp [op_inv_spd.apply_direct.main, hdiag, realOps]
    rw [hm]
    obtain ⟨_, hstat, _, _⟩ := diag_loop_spec realOps A.n_rows A.n_rows 0 A (by omega) hlen
    cases hb : (op_inv_spd.apply_direct.diag_loop realOps A.n_rows A.n_rows 0 A).1
    · rfl
    · obtain ⟨i, hi, hle⟩ := hneg
      have := (hstat.mp hb) i (Nat.zero_le _) hi
      exact absurd this (not_lt.mpr hle)
  constructor
  · intro hnotiny
    have h := apply_direct_of_tiny_unset X debug eps is_op_diagmat has_user_flags flags A
      hsq hnotiny
    rw [h.1, hmain]
  · rintro ⟨htiny, huf, hN⟩
    subst huf
    obtain ⟨⟨pre, hpre⟩, hnodbg⟩ := apply_direct_tiny_warnings realOps X debug eps
      is_op_diagmat A flags hsq rfl htiny (by rw [hmin]; exact hN)
    refine ⟨?_, ?_, ?_, hnodbg⟩
    · intro hok
      exact apply_direct_of_tiny_ok realOps X debug eps is_op_diagmat A flags hsq rfl htiny
        (by rw [hmin]; exact hN) hok
    · intro hfail
      have h := apply_direct_of_tiny_failed realOps X debug eps is_op_diagmat A flags hsq rfl
        htiny (by rw [hmin]; exact hN) (by rw [hfail])
      rw [h.1, hfail, hmain]
    · intro hd
      subst hd
      rw [hpre, (apply_tiny_warnings realOps X A).1 hneg]
      exact List.mem_append_right _ (List.mem_singleton.mpr rfl)

/-- The theorem `op_inv_spd_apply_direct_nonpositive` at `diag(2, -1)` without
flags (status `false`) and at the 1 x 1 matrix `[-1]` with `inv_opts::tiny`
in a debug build (status `true`, with the warning that the matrix is not
positive definite). -/
theorem op_inv_spd_apply_direct_nonpositive_witness :
    (op_inv_spd.apply_direct realOps refExternals true (1 / 1000) false true
      ⟨2, 2, [2, 0, 0, -1]⟩ 0).status = .ok false ∧
    (op_inv_spd.apply_direct realOps refExternals true (1 / 1000) false true
      ⟨1, 1, [-1]⟩ inv_opts.flag_tiny).status = .ok true ∧
    "inv_sympd(): given matrix is not positive definite"
      ∈ (op_inv_spd.apply_direct realOps refExternals true (1 / 1000) false true
          ⟨1, 1, [-1]⟩ inv_opts.flag_tiny).warnings :=
  ⟨(op_inv_spd_apply_direct_nonpositive refExternals true (1 / 1000) false true 0
      ⟨2, 2, [2, 0, 0, -1]⟩ (by decide) (by decide) (by decide)
      ⟨1, by decide, by simp [Mat.at, Mat.memAt]⟩).1 (Or.inl (by decide)),
   ((op_inv_spd_apply_direct_nonpositive refExternals true (1 / 1000) false true
      inv_opts.flag_tiny ⟨1, 1, [-1]⟩ (by decide) (by decide) (by decide)
      ⟨0, by decide, by simp [Mat.at, Mat.memAt]⟩).2 ⟨by decide, rfl, by decide⟩).1
      (by simp [refExternals, op_inv_gen.apply_tiny_small, Mat.memAt])
    |>.1,
   ((op_inv_spd_apply_direct_nonpositive refExternals true (1 / 1000) false true
      inv_opts.flag_tiny ⟨1, 1, [-1]⟩ (by decide) (by decide) (by decide)
      ⟨0, by decide, by simp [Mat.at, Mat.memAt]⟩).2 ⟨by decide, rfl, by decide⟩).2.2.1
      rfl⟩

/-! ## `op_inv_spd::apply` and `op_inv_spd_default::apply` -/

/-- The only exception `apply_direct` throws is the logic error of its
squareness check. -/
theorem apply_direct_error {eT : Type} [Inhabited eT] [DecidableEq eT] [Zero eT]
    (E : ElemOps eT) (X : Externals eT) (debug : Bool) (eps : ℚ)
    (is_op_diagmat has_user_flags : Bool) (expr : Mat eT) (flags : Nat) (e : Exn)
    (h : (op_inv_spd.apply_direct E X debug eps is_op_diagmat has_user_flags expr
      flags).status = .error e) :
    e = .logic_error "inv_sympd(): given matrix must be square sized" := by
  cases hdbg : (debug && (expr.is_square == false))
  · by_cases hgate : ((has_user_flags && inv_opts.test flags inv_opts.flag_tiny)
        && decide (min expr.n_rows expr.n_cols ≤ 4) && !E.is_cx) = true
    · cases ht : (op_inv_spd.apply_tiny E X debug expr).status
      · unfold op_inv_spd.apply_direct at h
        simp only [hdbg, hgate, ht, Bool.false_eq_true, if_false, if_true] at h
        exact absurd h (by simp)
      · unfold op_inv_spd.apply_direct at h
        simp only [hdbg, hgate, ht, Bool.false_eq_true, if_false, if_true] at h
        exact absurd h (by simp)
    · unfold op_inv_spd.apply_direct at h
      simp only [hdbg, hgate, Bool.false_eq_true, if_false] at h
      exact absurd h (by simp)
  · unfold op_inv_spd.apply_direct at h
    simp only [hdbg, if_true] at h
    exact (Except.error.inj h).symm

/-- What `apply` does with the result `r` of `apply_direct`, given that the
only exception in `r` is a logic error: the runtime error is raised exactly
on status `false`, the output then being empty; on status `true` the output
is that of `apply_direct` and nothing is raised. -/
theorem apply_finish_spec {eT : Type} (r : InvResult eT)
    (herr : ∀ e, r.status = .error e →
      e = .logic_error "inv_sympd(): given matrix must be square sized") :
    ((op_inv_spd.apply.finish r).thrown
        = some (.runtime_error "inv_sympd(): matrix is singular or not positive definite")
      ↔ r.status = .ok false) ∧
    (r.status = .ok false →
      (op_inv_spd.apply.finish r).out = ⟨0, 0, []⟩) ∧
    (r.status = .ok true →
      (op_inv_spd.apply.finish r).out = r.out ∧ (op_inv_spd.apply.finish r).thrown = none) := by
  unfold op_inv_spd.apply.finish
  cases hs : r.status with
  | error e =>
    have := herr e hs
    subst this
    simp
  | ok b =>
    cases b <;> simp [Mat.soft_reset]

/-- C7. `op_inv_spd::apply` and `op_inv_spd_default::apply` raise the runtime
error "inv_sympd(): matrix is singular or not positive definite" exactly when
the corresponding `apply_direct` returns `false`; the output matrix is then
empty (it was reset before the error was raised), so nothing `apply_direct`
wrote is left in it; when `apply_direct` returns `true` the output is exactly
what `apply_direct` produced and no error is raised. -/
theorem op_inv_spd_apply_spec {eT : Type} [Inhabited eT] [DecidableEq eT] [Zero eT]
    (E : ElemOps eT) (X : Externals eT) (debug : Bool) (eps : ℚ) (is_op_diagmat : Bool)
    (m : Mat eT) (flags : Nat) :
    (((op_inv_spd.apply E X debug eps is_op_diagmat m flags).thrown
        = some (.runtime_error "inv_sympd(): matrix is singular or not positive definite")
      ↔ (op_inv_spd.apply_direct E X debug eps is_op_diagmat true m flags).status
          = .ok false) ∧
     ((op_inv_spd.apply_direct E X debug eps is_op_diagmat true m flags).status = .ok false →
      (op_inv_spd.apply E X debug eps is_op_diagmat m flags).out = ⟨0, 0, []⟩) ∧
     ((op_inv_spd.apply_direct E X debug eps is_op_diagmat true m flags).status = .ok true →
      (op_inv_spd.apply E X debug eps is_op_diagmat m flags).out
          = (op_inv_spd.apply_direct E X debug eps is_op_diagmat true m flags).out ∧
      (op_inv_spd.apply E X debug eps is_op_diagmat m flags).thrown = none)) ∧
    (((op_inv_spd_default.apply E X debug eps is_op_diagmat m).thrown
        = some (.runtime_error "inv_sympd(): matrix is singular or not positive definite")
      ↔ (op_inv_spd_default.apply_direct E X debug eps is_op_diagmat m).status
          = .ok false) ∧
     ((op_inv_spd_default.apply_direct E X debug eps is_op_diagmat m).status = .ok false →
      (op_inv_spd_default.apply E X debug eps is_op_diagmat m).out = ⟨0, 0, []⟩) ∧
     ((op_inv_spd_default.apply_direct E X debug eps is_op_diagmat m).status = .ok true →
      (op_inv_spd_default.apply E X debug eps is_op_diagmat m).out
          = (op_inv_spd_default.apply_direct E X debug eps is_op_diagmat m).out ∧
      (op_inv_spd_default.apply E X debug eps is_op_diagmat m).thrown = none)) :=
  ⟨apply_finish_spec _ (fun e h => apply_direct_error E X debug eps is_op_diagmat true m flags e h),
   apply_finish_spec _ (fun e h => apply_direct_error E X debug eps is_op_diagmat false m 0 e h)⟩

/-- The theorem `op_inv_spd_apply_spec` at `diag(2, -1)`: `apply_direct`
returns `false` having written the reciprocal `1/2` of the first diagonal
entry; `apply` raises the runtime error and leaves an empty matrix. -/
theorem op_inv_spd_apply_spec_witness :
    (op_inv_spd.apply_direct realOps refExternals true (1 / 1000) false true
      ⟨2, 2, [2, 0, 0, -1]⟩ 0).status = .ok false ∧
    (op_inv_spd.apply_direct realOps refExternals true (1 / 1000) false true
      ⟨2, 2, [2, 0, 0, -1]⟩ 0).out = ⟨2, 2, [1 / 2, 0, 0, -1]⟩ ∧
    (op_inv_spd.apply realOps refExternals true (1 / 1000) false ⟨2, 2, [2, 0, 0, -1]⟩ 0).thrown
      = some (.runtime_error "inv_sympd(): matrix is singular or not positive definite") ∧
    (op_inv_spd.apply realOps refExternals true (1 / 1000) false ⟨2, 2, [2, 0, 0, -1]⟩ 0).out
      = ⟨0, 0, []⟩ := by
  have hd : (⟨2, 2, [2, 0, 0, -1]⟩ : Mat ℚ).is_diagmat = true := by decide
  have hmain : op_inv_spd.apply_direct.main realOps refExternals (1 / 1000) false 2
      ⟨2, 2, [2, 0, 0, -1]⟩ = (false, ⟨2, 2, [1 / 2, 0, 0, -1]⟩) := by
    simp [op_inv_spd.apply_direct.main, hd, op_inv_spd.apply_direct.diag_loop, realOps,
      Mat.memAt, Mat.memSet]
  have hdir := apply_direct_of_tiny_unset refExternals true (1 / 1000) false true 0
    ⟨2, 2, [2, 0, 0, -1]⟩ (by decide) (Or.inl (by decide))
  have hst : (op_inv_spd.apply_direct realOps refExternals true (1 / 1000) false true
      ⟨2, 2, [2, 0, 0, -1]⟩ 0).status = .ok false :=
    hdir.1.trans (congrArg (fun p => Except.ok p.1) hmain)
  have hout : (op_inv_spd.apply_direct realOps refExternals true (1 / 1000) false true
      ⟨2, 2, [2, 0, 0, -1]⟩ 0).out = ⟨2, 2, [1 / 2, 0, 0, -1]⟩ :=
    hdir.2.trans (congrArg (fun p => p.2) hmain)
  have h := (op_inv_spd_apply_spec realOps refExternals true (1 / 1000) false
    ⟨2, 2, [2, 0, 0, -1]⟩ 0).1
  exact ⟨hst, hout, h.1.mpr hst, h.2.1 hst⟩

/-! ## `op_inv_rcond` -/

theorem inv_opts.add_flags (a b : inv_opts.opts) : (a + b).flags = a.flags ||| b.flags :=
  rfl

theorem inv_opts.opts_ext {a b : inv_opts.opts} (h : a.flags = b.flags) : a = b := by
  cases a; cases b; simp only [inv_opts.opts.mk.injEq]; exact h

/-- Testing against the single-bit mask `2^k` is reading bit `k`. -/
theorem inv_opts.test_two_pow (n k : Nat) : inv_opts.test n (2 ^ k) = n.testBit k := by
  unfold inv_opts.test
  rw [Nat.and_two_pow]
  cases n.testBit k <;> simp

theorem inv_opts.sum_flags_testBit (l : List inv_opts.Name) (acc : inv_opts.opts) (k : Nat) :
    (l.foldl (fun acc x => acc + x.toOpts) acc).flags.testBit k
      = (acc.flags.testBit k || l.any (fun x => x.flag.testBit k)) := by
  induction l generalizing acc with
  | nil => simp
  | cons x xs ih =>
    rw [List.foldl_cons, ih, inv_opts.add_flags, Nat.testBit_or, List.any_cons]
    have : x.toOpts.flags = x.flag := by cases x <;> rfl
    rw [this, Bool.or_assoc]

theorem inv_opts.any_flag_iff (l : List inv_opts.Name) (k : Nat) (y : inv_opts.Name)
    (hy : ∀ x : inv_opts.Name, x.flag.testBit k = true ↔ x = y) :
    l.any (fun x => x.flag.testBit k) = true ↔ y ∈ l := by
  rw [List.any_eq_true]
  constructor
  · rintro ⟨x, hx, hb⟩
    rw [← (hy x).mp hb]; exact hx
  · intro h
    exact ⟨y, h, (hy y).mpr rfl⟩

/-- C9. Option combination. `(a + b).flags` is the bitwise OR of the flags,
so `+` is commutative, associative and idempotent, with `inv_opts::none` as
identity. The flags `flag_tiny`, `flag_likely_sympd` and `flag_no_sympd` are
non-zero and pairwise bit-disjoint, so for every sum of options drawn from
`none`, `tiny`, `likely_sympd`, `no_sympd` the test `(flags & flag_X) != 0`
holds exactly when option `X` is one of the summands. -/
theorem inv_opts_combination (a b c : inv_opts.opts) (l : List inv_opts.Name) :
    (a + b).flags = a.flags ||| b.flags ∧
    a + b = b + a ∧
    (a + b) + c = a + (b + c) ∧
    a + a = a ∧
    a + inv_opts.none = a ∧
    inv_opts.none + a = a ∧
    (inv_opts.flag_tiny ≠ 0 ∧ inv_opts.flag_likely_sympd ≠ 0 ∧ inv_opts.flag_no_sympd ≠ 0) ∧
    (inv_opts.flag_tiny &&& inv_opts.flag_likely_sympd = 0 ∧
      inv_opts.flag_tiny &&& inv_opts.flag_no_sympd = 0 ∧
      inv_opts.flag_likely_sympd &&& inv_opts.flag_no_sympd = 0) ∧
    (inv_opts.test (inv_opts.sum l).flags inv_opts.flag_tiny = true
      ↔ inv_opts.Name.tiny ∈ l) ∧
    (inv_opts.test (inv_opts.sum l).flags inv_opts.flag_likely_sympd = true
      ↔ inv_opts.Name.likely_sympd ∈ l) ∧
    (inv_opts.test (inv_opts.sum l).flags inv_opts.flag_no_sympd = true
      ↔ inv_opts.Name.no_sympd ∈ l) := by
  refine ⟨rfl, ?_, ?_, ?_, ?_, ?_, ⟨by decide, by decide, by decide⟩,
    ⟨by decide, by decide, by decide⟩, ?_, ?_, ?_⟩
  · exact inv_opts.opts_ext (by rw [inv_opts.add_flags, inv_opts.add_flags, Nat.lor_comm])
  · exact inv_opts.opts_ext (by simp only [inv_opts.add_flags, Nat.lor_assoc])
  · exact inv_opts.opts_ext (by rw [inv_opts.add_flags, Nat.or_self])
  · exact inv_opts.opts_ext (by
      rw [inv_opts.add_flags]; exact Nat.or_zero _)
  · exact inv_opts.opts_ext (by
      rw [inv_opts.add_flags]; exact Nat.zero_or _)
  · have h0 : inv_opts.flag_tiny = 2 ^ 0 := rfl
    rw [h0, inv_opts.test_two_pow, inv_opts.sum, inv_opts.sum_flags_testBit]
    have hn : inv_opts.none.flags.testBit 0 = false := by decide
    rw [hn, Bool.false_or]
    exact inv_opts.any_flag_iff l 0 _ (fun x => by cases x <;> decide)
  · have h0 : inv_opts.flag_likely_sympd = 2 ^ 1 := rfl
    rw [h0, inv_opts.test_two_pow, inv_opts.sum, inv_opts.sum_flags_testBit]
    have hn : inv_opts.none.flags.testBit 1 = false := by decide
    rw [hn, Bool.false_or]
    exact inv_opts.any_flag_iff l 1 _ (fun x => by cases x <;> decide)
  · have h0 : inv_opts.flag_no_sympd = 2 ^ 2 := rfl
    rw [h0, inv_opts.test_two_pow, inv_opts.sum, inv_opts.sum_flags_testBit]
    have hn : inv_opts.none.flags.testBit 2 = false := by decide
    rw [hn, Bool.false_or]
    exact inv_opts.any_flag_iff l 2 _ (fun x => by cases x <;> decide)

/-! ## `op_sp_nonzeros::apply` -/

/-- The iterator loop appends, to what was written, the next `k` entries the
iterator yields. -/
theorem sp_nonzeros_loop_spec {eT Iter : Type} (P : SpProxy eT Iter) (k : Nat) (it : Iter)
    (out_mem : List eT) :
    op_sp_nonzeros.apply.loop P k it out_mem
      = out_mem ++ (List.range k).map (fun i => P.deref (P.incr^[i] it)) := by
  induction k generalizing it out_mem with
  | zero => simp [op_sp_nonzeros.apply.loop]
  | succ k ih =>
    rw [op_sp_nonzeros.apply.loop, ih, List.range_succ_eq_map, List.map_cons, List.map_map,
      List.append_assoc]
    rfl

theorem take_eq_map_getD {eT : Type} [Inhabited eT] (l : List eT) (n : Nat)
    (h : n ≤ l.length) :
    l.take n = (List.range n).map (fun i => l.getD i default) := by
  apply List.ext_getElem
  · simp [h]
  · intro i h1 h2
    have hi : i < l.length := by
      simp only [List.length_take] at h1; omega
    simp [List.getD_eq_getElem?_getD, List.getElem?_eq_getElem hi]

/-- The iterator path of `apply`: the memory written is the list of the first
`N` entries the iterator yields. -/
theorem sp_nonzeros_apply_loop_mem {eT Iter : Type} (P : SpProxy eT Iter)
    (h : P.stored_is_SpMat = false) :
    (op_sp_nonzeros.apply P).mem = (List.range P.get_n_nonzero).map P.nth := by
  unfold op_sp_nonzeros.apply
  by_cases hN : P.get_n_nonzero > 0
  · simp only [hN, if_true, h, Bool.false_eq_true, if_false, sp_nonzeros_loop_spec,
      List.nil_append]
    rfl
  · have h0 : P.get_n_nonzero = 0 := by omega
    simp [h0]

/-- The direct-copy path of `apply`: the memory written is the list of the
first `N` stored values. -/
theorem sp_nonzeros_apply_copy_mem {eT Iter : Type} [Inhabited eT] (P : SpProxy eT Iter)
    (h : P.stored_is_SpMat = true) (hlen : P.get_n_nonzero ≤ P.Q.values.length) :
    (op_sp_nonzeros.apply P).mem
      = (List.range P.get_n_nonzero).map (fun i => P.Q.values.getD i default) := by
  unfold op_sp_nonzeros.apply
  by_cases hN : P.get_n_nonzero > 0
  · simp only [hN, if_true, h, arrayops.copy]
    exact take_eq_map_getD _ _ hlen
  · have h0 : P.get_n_nonzero = 0 := by omega
    simp [h0]

theorem sp_nonzeros_apply_dims {eT Iter : Type} (P : SpProxy eT Iter) :
    (op_sp_nonzeros.apply P).n_rows = P.get_n_nonzero ∧ (op_sp_nonzeros.apply P).n_cols = 1 := by
  unfold op_sp_nonzeros.apply
  by_cases hN : P.get_n_nonzero > 0
  · cases P.stored_is_SpMat <;> simp [hN]
  · simp [hN]

/-- The proxy of a plain `SpMat` whose values array holds its `n_nonzero`
entries is coherent. -/
theorem SpProxy.ofSpMat_coherent {eT : Type} [Inhabited eT] (M : SpMat eT)
    (h : M.n_nonzero ≤ M.values.length) : (SpProxy.ofSpMat M).Coherent := by
  intro _
  refine ⟨h, ?_⟩
  have hit : ∀ i : Nat, (fun internal_pos : Nat => internal_pos + 1)^[i] 0 = i := by
    intro i
    induction i with
    | zero => rfl
    | succ n ih => rw [Function.iterate_succ_apply', ih]
  intro i _
  simp only [SpProxy.nth, SpProxy.ofSpMat, hit]

/-- C10. `op_sp_nonzeros::apply` on a sparse object with `N` stored nonzero
entries: the output is an `N x 1` column vector (`0 x 1` when `N = 0`) whose
`i`-th element is the `i`-th nonzero entry in the object's iteration order;
and for a plain `SpMat` the direct copy of the stored values and the iterator
loop produce the same output. -/
theorem op_sp_nonzeros_apply_spec {eT Iter : Type} [Inhabited eT] (P : SpProxy eT Iter)
    (M : SpMat eT) (hP : P.Coherent) (hM : M.n_nonzero ≤ M.values.length) :
    ((op_sp_nonzeros.apply P).n_rows = P.get_n_nonzero ∧
      (op_sp_nonzeros.apply P).n_cols = 1 ∧
      (op_sp_nonzeros.apply P).mem.length = P.get_n_nonzero ∧
      (P.get_n_nonzero = 0 → op_sp_nonzeros.apply P = ⟨0, 1, []⟩) ∧
      ∀ i, i < P.get_n_nonzero → (op_sp_nonzeros.apply P).at i 0 = P.nth i) ∧
    op_sp_nonzeros.apply (SpProxy.ofSpMat M)
      = op_sp_nonzeros.apply { SpProxy.ofSpMat M with stored_is_SpMat := false } := by
  have hmem : (op_sp_nonzeros.apply P).mem = (List.range P.get_n_nonzero).map P.nth := by
    cases hs : P.stored_is_SpMat
    · exact sp_nonzeros_apply_loop_mem P hs
    · obtain ⟨hlen, hval⟩ := hP hs
      rw [sp_nonzeros_apply_copy_mem P hs hlen]
      apply List.map_congr_left
      intro i hi
      exact (hval i (List.mem_range.mp hi)).symm
  obtain ⟨hr, hc⟩ := sp_nonzeros_apply_dims P
  refine ⟨⟨hr, hc, ?_, ?_, ?_⟩, ?_⟩
  · rw [hmem]; simp
  · intro h0
    unfold op_sp_nonzeros.apply
    simp [h0]
  · intro i hi
    unfold Mat.at Mat.memAt
    rw [hmem, hr]
    simp [List.getD_eq_getElem?_getD, hi]
  · have h1 := sp_nonzeros_apply_copy_mem (SpProxy.ofSpMat M) rfl hM
    have h2 := sp_nonzeros_apply_loop_mem
      { SpProxy.ofSpMat M with stored_is_SpMat := false } rfl
    obtain ⟨a1, a2⟩ := sp_nonzeros_apply_dims (SpProxy.ofSpMat M)
    obtain ⟨b1, b2⟩ := sp_nonzeros_apply_dims
      { SpProxy.ofSpMat M with stored_is_SpMat := false }
    have hcoh := (SpProxy.ofSpMat_coherent M hM) rfl
    have hmemeq : (op_sp_nonzeros.apply (SpProxy.ofSpMat M)).mem
        = (op_sp_nonzeros.apply { SpProxy.ofSpMat M with stored_is_SpMat := false }).mem := by
      rw [h1, h2]
      apply List.map_congr_left
      intro i hi
      exact (hcoh.2 i (List.mem_range.mp hi)).symm
    cases hA : op_sp_nonzeros.apply (SpProxy.ofSpMat M)
    cases hB : op_sp_nonzeros.apply { SpProxy.ofSpMat M with stored_is_SpMat := false }
    rw [hA] at a1 a2 hmemeq
    rw [hB] at b1 b2 hmemeq
    simp only at a1 a2 b1 b2 hmemeq
    rw [a1, a2, b1, b2, hmemeq]

/-- The theorem `op_sp_nonzeros_apply_spec` at the sparse matrix `sp3`: the
output is the 3 x 1 column `(5, 7, 9)`, by either path. -/
theorem op_sp_nonzeros_apply_spec_witness :
    (SpProxy.ofSpMat sp3).Coherent ∧ sp3.n_nonzero ≤ sp3.values.length ∧
    op_sp_nonzeros.apply (SpProxy.ofSpMat sp3) = ⟨3, 1, [5, 7, 9]⟩ ∧
    op_sp_nonzeros.apply { SpProxy.ofSpMat sp3 with stored_is_SpMat := false }
      = ⟨3, 1, [5, 7, 9]⟩ ∧
    (∀ i, i < 3 →
      (op_sp_nonzeros.apply (SpProxy.ofSpMat sp3)).at i 0 = (SpProxy.ofSpMat sp3).nth i) := by
  have hlen : sp3.n_nonzero ≤ sp3.values.length := by decide
  have hcoh := SpProxy.ofSpMat_coherent sp3 hlen
  have h := op_sp_nonzeros_apply_spec (SpProxy.ofSpMat sp3) sp3 hcoh hlen
  have hval : op_sp_nonzeros.apply (SpProxy.ofSpMat sp3) = ⟨3, 1, [5, 7, 9]⟩ := by
    simp [op_sp_nonzeros.apply, SpProxy.ofSpMat, sp3, arrayops.copy]
  refine ⟨hcoh, hlen, hval, ?_, ?_⟩
  · rw [← h.2]; exact hval
  · intro i hi
    exact h.1.2.2.2.2 i hi

/-! ## NaN on the diagonal -/

/-- A NaN among the diagonal entries of a non-empty matrix makes
`rank_diagmat` raise the runtime error "rank(): detected NaN". -/
theorem rank_diagmat_nan {eT : Type} [Inhabited eT] (E : ElemOps eT) (eps : ℚ)
    (A : Mat eT) (tol : ℚ) (hne : A.is_empty = false)
    (h : ∃ i, i < min A.n_rows A.n_cols ∧ E.isnan (A.at i i) = true) :
    rank_diagmat E eps A tol = .error (.runtime_error "rank(): detected NaN") := by
  obtain ⟨i, hi, hnan⟩ := h
  have hscan := rank_diagmat_scan_nan E A (min A.n_rows A.n_cols) 0 [] 0
    ⟨i, Nat.zero_le _, by omega, hnan⟩
  simp only [rank_diagmat, hne, Bool.false_eq_true, if_false, hscan]

/-- The theorem `rank_diagmat_nan` at the 2 x 2 matrix with diagonal
`(3, NaN)`. -/
theorem rank_diagmat_nan_example :
    rank_diagmat nanOps (1 / 1000) ⟨2, 2, [some 3, some 0, some 0, none]⟩ 0
      = .error (.runtime_error "rank(): detected NaN") :=
  rank_diagmat_nan nanOps (1 / 1000) ⟨2, 2, [some 3, some 0, some 0, none]⟩ 0 (by decide)
    ⟨1, by decide, by simp [nanOps, Mat.at, Mat.memAt]⟩

/-! ## `rank_diagmat`: bound, and the default tolerance -/

/-- What `rank_diagmat` returns for a non-empty matrix without NaN on its
diagonal, with the running maximum of the loop as it stands. -/
theorem rank_diagmat_value {eT : Type} [Inhabited eT] (E : ElemOps eT) (eps : ℚ)
    (A : Mat eT) (tol : ℚ) (hne : A.is_empty = false)
    (hnan : ∀ i, i < min A.n_rows A.n_cols → E.isnan (A.at i i) = false) :
    rank_diagmat E eps A tol
      = .ok ((Finset.range (min A.n_rows A.n_cols)).filter
          (fun i =>
            (if tol = 0 then
              (max A.n_rows A.n_cols : ℚ)
                * running_max (diag_abs E A 0 (min A.n_rows A.n_cols)) 0 * eps
             else tol) < E.abs (A.at i i))).card := by
  have hscan := rank_diagmat_scan_ok E A (min A.n_rows A.n_cols) 0 [] 0
    (fun j _ hj => hnan j (by omega))
  simp only [rank_diagmat, hne, Bool.false_eq_true, if_false, hscan, List.nil_append]
  rw [count_above_diag_abs]

/-- C12. `rank_diagmat` over exact arithmetic, for a non-empty matrix `A`
without NaN on its diagonal, the absolute value of the element type vanishing
only at zero. For every `tol` the call returns a count that is at most
`min(n_rows, n_cols)`. With the default tolerance and
`max(n_rows, n_cols) * eps < 1`, the result is `0` if and only if every
diagonal entry `A(i,i)`, `i < min(n_rows, n_cols)`, is zero. -/
theorem rank_diagmat_default_tol_zero_iff {eT : Type} [Inhabited eT] [Zero eT]
    (E : ElemOps eT) (eps : ℚ) (A : Mat eT)
    (habs : ∀ x : eT, E.abs x = 0 ↔ x = 0)
    (hne : A.is_empty = false)
    (hnan : ∀ i, i < min A.n_rows A.n_cols → E.isnan (A.at i i) = false)
    (heps : (max A.n_rows A.n_cols : ℚ) * eps < 1) :
    (rank_diagmat E eps A 0 = .ok 0
      ↔ ∀ i, i < min A.n_rows A.n_cols → A.at i i = 0) ∧
    (∀ tol : ℚ, ∃ n, rank_diagmat E eps A tol = .ok n ∧ n ≤ min A.n_rows A.n_cols) := by
  have hN : 0 < min A.n_rows A.n_cols := by
    have := A.not_empty_dims hne
    exact lt_min this.1 this.2
  obtain ⟨⟨i0, hi0, hatt⟩, hub⟩ := running_max_diag_abs E A _ hN
  constructor
  · rw [rank_diagmat_value E eps A 0 hne hnan]
    simp only [if_true]
    constructor
    · intro h
      have hcard := Except.ok.inj h
      rw [Finset.card_eq_zero, Finset.filter_eq_empty_iff] at hcard
      have hm_nonneg : 0 ≤ running_max (diag_abs E A 0 (min A.n_rows A.n_cols)) 0 := by
        rw [← hatt]; exact E.abs_nonneg _
      have hm_le : running_max (diag_abs E A 0 (min A.n_rows A.n_cols)) 0 ≤ 0 := by
        by_contra hpos
        have hpos : 0 < running_max (diag_abs E A 0 (min A.n_rows A.n_cols)) 0 :=
          not_le.mp hpos
        have h0 := hcard (Finset.mem_range.mpr hi0)
        apply h0
        rw [hatt]
        calc (max A.n_rows A.n_cols : ℚ)
              * running_max (diag_abs E A 0 (min A.n_rows A.n_cols)) 0 * eps
            = ((max A.n_rows A.n_cols : ℚ) * eps)
              * running_max (diag_abs E A 0 (min A.n_rows A.n_cols)) 0 := by ring
          _ < 1 * running_max (diag_abs E A 0 (min A.n_rows A.n_cols)) 0 :=
              mul_lt_mul_of_pos_right heps hpos
          _ = running_max (diag_abs E A 0 (min A.n_rows A.n_cols)) 0 := one_mul _
      intro i hi
      have h1 : E.abs (A.at i i) ≤ 0 := le_trans (hub i hi) hm_le
      exact (habs _).mp (le_antisymm h1 (E.abs_nonneg _))
    · intro hz
      have hm : running_max (diag_abs E A 0 (min A.n_rows A.n_cols)) 0 = 0 := by
        rw [← hatt, hz i0 hi0]; exact (habs 0).mpr rfl
      congr 1
      rw [Finset.card_eq_zero, Finset.filter_eq_empty_iff]
      intro i hi
      have hi' : i < min A.n_rows A.n_cols := Finset.mem_range.mp hi
      rw [hm, hz i hi', (habs 0).mpr rfl]
      simp
  · intro tol
    refine ⟨_, rank_diagmat_value E eps A tol hne hnan, ?_⟩
    calc ((Finset.range (min A.n_rows A.n_cols)).filter _).card
        ≤ (Finset.range (min A.n_rows A.n_cols)).card := Finset.card_filter_le _ _
      _ = min A.n_rows A.n_cols := Finset.card_range _

/-- The theorem `rank_diagmat_default_tol_zero_iff` at the real 2 x 2 matrix
with rows `(0, 7)` and `(5, 0)`, whose diagonal is zero, with `eps = 1/1000`:
the rank by the diagonal is `0` with the default tolerance, and at most `2`
with the tolerance `1/2`. -/
theorem rank_diagmat_default_tol_zero_iff_witness :
    (⟨2, 2, [0, 5, 7, 0]⟩ : Mat ℚ).is_empty = false ∧
    (∀ i, i < min 2 2 → (⟨2, 2, [0, 5, 7, 0]⟩ : Mat ℚ).at i i = 0) ∧
    rank_diagmat realOps (1 / 1000) ⟨2, 2, [0, 5, 7, 0]⟩ 0 = .ok 0 ∧
    (∃ n, rank_diagmat realOps (1 / 1000) ⟨2, 2, [0, 5, 7, 0]⟩ (1 / 2) = .ok n ∧ n ≤ 2) := by
  have hz : ∀ i, i < min 2 2 → (⟨2, 2, [0, 5, 7, 0]⟩ : Mat ℚ).at i i = 0 := by
    intro i hi
    have hi2 : i < 2 := hi
    interval_cases i <;> simp [Mat.at, Mat.memAt]
  have h := rank_diagmat_default_tol_zero_iff realOps (1 / 1000) ⟨2, 2, [0, 5, 7, 0]⟩
    (fun x => abs_eq_zero) (by decide) (fun _ _ => rfl) (by norm_num)
  exact ⟨by decide, hz, h.1.mpr hz, h.2 (1 / 2)⟩

/-! ## Which flags `op_inv_spd::apply_direct` reads -/

/-- Without user flags the flags argument is not read at all: the whole
result, warnings included, is the same for any two flags values. -/
theorem apply_direct_no_user_flags {eT : Type} [Inhabited eT] [DecidableEq eT] [Zero eT]
    (E : ElemOps eT) (X : Externals eT) (debug : Bool) (eps : ℚ) (is_op_diagmat : Bool)
    (expr : Mat eT) (f1 f2 : Nat) :
    op_inv_spd.apply_direct E X debug eps is_op_diagmat false expr f1
      = op_inv_spd.apply_direct E X debug eps is_op_diagmat false expr f2 := by
  unfold op_inv_spd.apply_direct
  simp only [Bool.false_and]

/-- With user flags, status and output are determined by the tiny bit. -/
theorem apply_direct_tiny_bit_only {eT : Type} [Inhabited eT] [DecidableEq eT] [Zero eT]
    (E : ElemOps eT) (X : Externals eT) (debug : Bool) (eps : ℚ) (is_op_diagmat : Bool)
    (expr : Mat eT) (f1 f2 : Nat)
    (h : inv_opts.test f1 inv_opts.flag_tiny = inv_opts.test f2 inv_opts.flag_tiny) :
    (op_inv_spd.apply_direct E X debug eps is_op_diagmat true expr f1).status
      = (op_inv_spd.apply_direct E X debug eps is_op_diagmat true expr f2).status ∧
    (op_inv_spd.apply_direct E X debug eps is_op_diagmat true expr f1).out
      = (op_inv_spd.apply_direct E X debug eps is_op_diagmat true expr f2).out := by
  unfold op_inv_spd.apply_direct
  simp only [Bool.true_and, h]
  cases hdbg : (debug && (expr.is_square == false))
  · simp only [Bool.false_eq_true, if_false]
    cases hgate : (inv_opts.test f2 inv_opts.flag_tiny
        && decide (min expr.n_rows expr.n_cols ≤ 4) && !E.is_cx)
    · simp only [Bool.false_eq_true, if_false, and_self]
    · simp only [if_true]
      cases ht : (op_inv_spd.apply_tiny E X debug expr).status
      · simp only [Bool.false_eq_true, if_false, and_self]
      · simp only [if_true, and_self]
  · simp only [if_true, and_self]

/-- C11. Which flags can change the result of SPD inversion. For every input
and any two flags values `f1`, `f2`: `op_inv_spd::apply_direct<T1,false>`
returns the same status and output (indeed the same warnings) for `f1` as for
`f2`, so `op_inv_spd_default::apply_direct` equals
`op_inv_spd::apply_direct<T1,false>` at any flags value; and
`op_inv_spd::apply_direct<T1,true>` returns the same status and output for
`f1` as for `f2` whenever they agree on the `flag_tiny` bit. -/
theorem op_inv_spd_flags_relevance {eT : Type} [Inhabited eT] [DecidableEq eT] [Zero eT]
    (E : ElemOps eT) (X : Externals eT) (debug : Bool) (eps : ℚ) (is_op_diagmat : Bool)
    (expr : Mat eT) (f1 f2 : Nat) :
    ((op_inv_spd.apply_direct E X debug eps is_op_diagmat false expr f1).status
        = (op_inv_spd.apply_direct E X debug eps is_op_diagmat false expr f2).status ∧
      (op_inv_spd.apply_direct E X debug eps is_op_diagmat false expr f1).out
        = (op_inv_spd.apply_direct E X debug eps is_op_diagmat false expr f2).out ∧
      (op_inv_spd.apply_direct E X debug eps is_op_diagmat false expr f1).warnings
        = (op_inv_spd.apply_direct E X debug eps is_op_diagmat false expr f2).warnings) ∧
    op_inv_spd_default.apply_direct E X debug eps is_op_diagmat expr
      = op_inv_spd.apply_direct E X debug eps is_op_diagmat false expr f1 ∧
    (inv_opts.test f1 inv_opts.flag_tiny = inv_opts.test f2 inv_opts.flag_tiny →
      (op_inv_spd.apply_direct E X debug eps is_op_diagmat true expr f1).status
        = (op_inv_spd.apply_direct E X debug eps is_op_diagmat true expr f2).status ∧
      (op_inv_spd.apply_direct E X debug eps is_op_diagmat true expr f1).out
        = (op_inv_spd.apply_direct E X debug eps is_op_diagmat true expr f2).out) := by
  refine ⟨?_, ?_, ?_⟩
  · rw [apply_direct_no_user_flags E X debug eps is_op_diagmat expr f1 f2]
    exact ⟨rfl, rfl, rfl⟩
  · unfold op_inv_spd_default.apply_direct
    exact apply_direct_no_user_flags E X debug eps is_op_diagmat expr 0 f1
  · exact apply_direct_tiny_bit_only E X debug eps is_op_diagmat expr f1 f2

/-- The theorem `op_inv_spd_flags_relevance` at `diag(2, 4)` in a debug build,
with no flag set and with `likely_sympd + no_sympd` set (both leave the tiny
bit unset): status and output agree, and only the warnings differ. -/
theorem op_inv_spd_flags_relevance_witness :
    inv_opts.test 0 inv_opts.flag_tiny
      = inv_opts.test (inv_opts.likely_sympd + inv_opts.no_sympd).flags inv_opts.flag_tiny ∧
    (op_inv_spd.apply_direct realOps refExternals true (1 / 1000) false true
        ⟨2, 2, [2, 0, 0, 4]⟩ 0).status
      = (op_inv_spd.apply_direct realOps refExternals true (1 / 1000) false true
        ⟨2, 2, [2, 0, 0, 4]⟩ (inv_opts.likely_sympd + inv_opts.no_sympd).flags).status ∧
    (op_inv_spd.apply_direct realOps refExternals true (1 / 1000) false true
        ⟨2, 2, [2, 0, 0, 4]⟩ 0).out
      = (op_inv_spd.apply_direct realOps refExternals true (1 / 1000) false true
        ⟨2, 2, [2, 0, 0, 4]⟩ (inv_opts.likely_sympd + inv_opts.no_sympd).flags).out ∧
    (op_inv_spd.apply_direct realOps refExternals true (1 / 1000) false true
        ⟨2, 2, [2, 0, 0, 4]⟩ 0).warnings = [] ∧
    (op_inv_spd.apply_direct realOps refExternals true (1 / 1000) false true
        ⟨2, 2, [2, 0, 0, 4]⟩ (inv_opts.likely_sympd + inv_opts.no_sympd).flags).warnings
      = ["inv_sympd(): option 'likely_sympd' ignored",
         "inv_sympd(): option 'no_sympd' ignored"] := by
  have hbit : inv_opts.test 0 inv_opts.flag_tiny
      = inv_opts.test (inv_opts.likely_sympd + inv_opts.no_sympd).flags inv_opts.flag_tiny := by
    decide
  have h := (op_inv_spd_flags_relevance realOps refExternals true (1 / 1000) false
    ⟨2, 2, [2, 0, 0, 4]⟩ 0 (inv_opts.likely_sympd + inv_opts.no_sympd).flags).2.2 hbit
  have hsq : (⟨2, 2, [2, 0, 0, 4]⟩ : Mat ℚ).is_square = true := by decide
  have hsym : (⟨2, 2, [2, 0, 0, 4]⟩ : Mat ℚ).is_symmetric = true := by decide
  have hrud : refExternals.rudimentary_sym_check ⟨2, 2, [2, 0, 0, 4]⟩ = true := hsym
  have t0 : inv_opts.test 0 inv_opts.flag_tiny = false := by decide
  have l0 : inv_opts.test 0 inv_opts.flag_likely_sympd = false := by decide
  have n0 : inv_opts.test 0 inv_opts.flag_no_sympd = false := by decide
  have t6 : inv_opts.test (inv_opts.likely_sympd + inv_opts.no_sympd).flags
      inv_opts.flag_tiny = false := by decide
  have l6 : inv_opts.test (inv_opts.likely_sympd + inv_opts.no_sympd).flags
      inv_opts.flag_likely_sympd = true := by decide
  have n6 : inv_opts.test (inv_opts.likely_sympd + inv_opts.no_sympd).flags
      inv_opts.flag_no_sympd = true := by decide
  refine ⟨hbit, h.1, h.2, ?_, ?_⟩
  · unfold op_inv_spd.apply_direct
    simp only [hsq, hrud, t0, l0, n0, Bool.and_false, Bool.false_and, Bool.false_eq_true,
      if_false, beq_self_eq_true, Bool.true_and, List.append_nil]
    rfl
  · unfold op_inv_spd.apply_direct
    simp only [hsq, hrud, t6, l6, n6, Bool.and_false, Bool.false_and, Bool.false_eq_true,
      if_false, if_true, Bool.and_self, Bool.true_and, arma_debug_warn, List.append_nil]
    rfl

/-! ## The SVD path of `rank`, for any pod arithmetic -/

theorem pod_count_above_foldl {T : Type} (P : PodOps T) (vals : List T) (tol : T) (c : Nat) :
    vals.foldl (fun count x => count + (if P.gt x tol then 1 else 0)) c
      = c + vals.countP (fun x => P.gt x tol) := by
  induction vals generalizing c with
  | nil => simp
  | cons x xs ih =>
    rw [List.foldl_cons, ih, List.countP_cons]
    cases h : P.gt x tol
    · simp
    · simp; omega

theorem map_getD_range_any {T : Type} (s : List T) (d : T) :
    (List.range s.length).map (fun i => s.getD i d) = s := by
  apply List.ext_getElem
  · simp
  · intro i h1 h2
    simp [List.getD_eq_getElem?_getD, List.getElem?_eq_getElem h2]

/-- Counting the entries of a list that are `>` a threshold, in the pod
type's comparison, is counting the indices at which the entry is. -/
theorem pod_count_above_eq_card {T : Type} (P : PodOps T) (s : List T) (t : T) :
    Pod.count_above P s t
      = ((Finset.range s.length).filter (fun i => P.gt (s.getD i P.zero) t = true)).card := by
  unfold Pod.count_above
  rw [pod_count_above_foldl, Nat.zero_add, card_filter_range]
  conv_lhs => rw [← map_getD_range_any s P.zero]
  rw [List.countP_map]
  congr 1
  funext i
  simp

/-- C2. `rank(X, tol)` on the SVD path, the products and comparisons being
those of the pod type, whatever they are. For a non-empty matrix that is not
a `diagmat` expression, not diagonal, and not symmetric (real) / hermitian
(complex): when `svd_dc` succeeds with singular values `s`, the result is the
number of indices `i` with `s[i] > t`, where `t` is `tol` when `tol == 0`
fails, and `max(n_rows, n_cols) * s[0] * eps`, multiplied in the pod type,
when `tol == 0` holds (for an empty `s` nothing is counted); when `svd_dc`
fails, the runtime error "rank(): svd failed" is raised. -/
theorem rank_svd_path {eT T : Type} [Inhabited eT] [DecidableEq eT] [Zero eT]
    (P : PodOps T) (E : PodElem eT T) (R : PodRoutines eT T) (A : Mat eT) (tol : T)
    (hne : A.is_empty = false) (hd : A.is_diagmat = false)
    (hs : E.is_cx = false → A.is_symmetric = false)
    (hh : E.is_cx = true → A.is_hermitian E.conj = false) :
    (∀ s, R.svd_dc A = some s →
      Pod.rank P E R false A tol
        = .ok ((Finset.range s.length).filter
            (fun i =>
              P.gt (s.getD i P.zero)
                (if P.eq tol P.zero = true then
                  P.mul (P.mul (P.of_uword (max A.n_rows A.n_cols)) (s.getD 0 P.zero))
                    P.epsilon
                 else tol) = true)).card) ∧
    (R.svd_dc A = none →
      Pod.rank P E R false A tol = .error (.runtime_error "rank(): svd failed")) := by
  have hsym : (!E.is_cx && A.is_symmetric) = false := by
    cases hc : E.is_cx
    · simp [hs hc]
    · simp
  have hher : (E.is_cx && A.is_hermitian E.conj) = false := by
    cases hc : E.is_cx
    · simp
    · simp [hh hc]
  constructor
  · intro s hsvd
    simp only [Pod.rank, hne, hd, hsym, hher, hsvd, Bool.false_eq_true, if_false,
      Bool.or_self]
    rw [pod_count_above_eq_card]
    cases s with
    | nil => simp
    | cons x xs =>
      cases ht : P.eq tol P.zero
      · simp
      · simp [Pod.default_tol]
  · intro hsvd
    simp only [Pod.rank, hne, hd, hsym, hher, hsvd, Bool.false_eq_true, if_false,
      Bool.or_self]

set_option maxRecDepth 100000 in
theorem huge_numbers :
    huge ≠ 0 ∧ huge ≠ 1 ∧
    ¬ ((2 : ℚ) * huge < 2 ^ 1024) ∧
    (2 : ℚ) * huge * (1 / 2 ^ 52) < huge ∧
    ¬ ((2 : ℚ) * huge * (1 / 2 ^ 52) < 1) := by
  unfold huge
  refine ⟨?_, ?_, ?_, ?_, ?_⟩ <;> norm_num

theorem big2_shape :
    big2.is_empty = false ∧ big2.is_diagmat = false ∧ big2.is_symmetric = false := by
  obtain ⟨h0, h1, _⟩ := huge_numbers
  refine ⟨rfl, ?_, ?_⟩
  · cases h : big2.is_diagmat
    · rfl
    · exfalso
      have h10 := (Mat.is_diagmat_iff big2).mp h 1 0 (by decide) (by decide) (by decide)
      simp only [big2, Mat.at, Mat.memAt] at h10
      exact h0 h10
  · cases h : big2.is_symmetric
    · rfl
    · exfalso
      simp only [Mat.is_symmetric, Bool.and_eq_true, List.all_eq_true, List.mem_range,
        decide_eq_true_eq] at h
      have h10 := h.2 0 (by decide) 1 (by decide)
      simp only [big2, Mat.at, Mat.memAt] at h10
      exact h1 h10

theorem big2_svd {T : Type} (s : List T) : (big2Routines s).svd_dc big2 = some s := by
  simp only [big2Routines, if_true]

/-- The theorem `rank_svd_path` at `big2`, singular values `2^1023` and `1`,
with the default tolerance and epsilon `2^-52`. In the overflowing pod type
the product `2 * 2^1023` is `+inf`, no singular value is above the tolerance,
and the result is `0`; in exact arithmetic the tolerance is `2^972` and the
result is `1`. -/
theorem rank_svd_path_witness :
    big2.is_empty = false ∧ big2.is_diagmat = false ∧ big2.is_symmetric = false ∧
    Pod.rank ovfPod ovfElem (big2Routines [Ovf.fin huge, Ovf.fin 1]) false big2
      (Ovf.fin 0) = .ok 0 ∧
    Pod.rank (exactPod (1 / 2 ^ 52)) realOps.toPod (big2Routines [huge, 1]) false big2
      0 = .ok 1 := by
  obtain ⟨he, hd, hs⟩ := big2_shape
  obtain ⟨_, _, n1, n2, n3⟩ := huge_numbers
  have hmax : max big2.n_rows big2.n_cols = 2 := rfl
  refine ⟨he, hd, hs, ?_, ?_⟩
  · have hc : ovfElem.is_cx = true → big2.is_hermitian ovfElem.conj = false := by
      intro h; exact absurd h (by simp [ovfElem])
    have h0 := rank_svd_path ovfPod ovfElem (big2Routines [Ovf.fin huge, Ovf.fin 1]) big2
      (Ovf.fin 0) he hd (fun _ => hs) hc
    have h := h0.1 [Ovf.fin huge, Ovf.fin 1] (big2_svd _)
    refine h.trans (congrArg Except.ok ?_)
    rw [Finset.card_eq_zero, Finset.filter_eq_empty_iff]
    intro i _
    have hmul : ovfPod.mul (ovfPod.mul (ovfPod.of_uword (max big2.n_rows big2.n_cols))
        (([Ovf.fin huge, Ovf.fin 1] : List Ovf).getD 0 ovfPod.zero)) ovfPod.epsilon
        = Ovf.inf := by
      rw [hmax]
      simp only [ovfPod, List.getD_cons_zero, Nat.cast_ofNat, n1, if_false]
    have heq : ovfPod.eq (Ovf.fin 0) ovfPod.zero = true := by simp [ovfPod]
    rw [heq, if_pos rfl, hmul]
    cases ([Ovf.fin huge, Ovf.fin 1] : List Ovf).getD i ovfPod.zero <;> simp [ovfPod]
  · have hc : realOps.toPod.is_cx = true
        → big2.is_hermitian realOps.toPod.conj = false := by
      intro h; exact absurd h (by simp [ElemOps.toPod, realOps])
    have h0 := rank_svd_path (exactPod (1 / 2 ^ 52)) realOps.toPod (big2Routines [huge, 1])
      big2 0 he hd (fun _ => hs) hc
    have h := h0.1 [huge, 1] (big2_svd _)
    refine h.trans (congrArg Except.ok ?_)
    rw [hmax, card_filter_range]
    simp only [exactPod, decide_True, if_true, List.getD_cons_zero, Nat.cast_ofNat,
      List.length_cons, List.length_nil, List.range_succ, List.range_zero, List.nil_append,
      List.cons_append, List.countP_cons, List.countP_nil, decide_eq_true_eq, gt_iff_lt,
      List.getD_cons_succ, n2, n3, if_false, Nat.zero_add]

/-! ## The two embeddings of `fn_rank.hpp` agree in exact arithmetic -/

theorem exact_pod_count_above (eps : ℚ) (vals : List ℚ) (tol : ℚ) :
    Pod.count_above (exactPod eps) vals tol = count_above vals tol := by
  unfold Pod.count_above count_above
  simp [exactPod]

theorem exact_pod_default_tol {eT : Type} (eps : ℚ) (A : Mat eT) (x : ℚ) :
    Pod.default_tol (exactPod eps) A x = (max A.n_rows A.n_cols : ℚ) * x * eps := by
  simp [Pod.default_tol, exactPod, Nat.cast_max]

theorem exact_pod_rank_diagmat_scan {eT : Type} [Inhabited eT] (E : ElemOps eT) (eps : ℚ)
    (A : Mat eT) (k i : Nat) (vals : List ℚ) (mx : ℚ) :
    Pod.rank_diagmat.scan (exactPod eps) E.toPod A k i vals mx
      = rank_diagmat.scan E A k i vals mx := by
  induction k generalizing i vals mx with
  | zero => rfl
  | succ k ih =>
    simp only [Pod.rank_diagmat.scan, rank_diagmat.scan, ih]
    simp [exactPod, ElemOps.toPod]

theorem exact_pod_rank_diagmat {eT : Type} [Inhabited eT] (E : ElemOps eT) (eps : ℚ)
    (A : Mat eT) (tol : ℚ) :
    Pod.rank_diagmat (exactPod eps) E.toPod A tol = rank_diagmat E eps A tol := by
  have hscan := exact_pod_rank_diagmat_scan E eps A (min A.n_rows A.n_cols) 0 [] 0
  have hz : (exactPod eps).zero = 0 := rfl
  unfold Pod.rank_diagmat rank_diagmat
  cases hE : A.is_empty
  · simp only [Bool.false_eq_true, if_false, hz, hscan]
    cases hs : rank_diagmat.scan E A (min A.n_rows A.n_cols) 0 [] 0 with
    | error e => rfl
    | ok r =>
      obtain ⟨vals, mx⟩ := r
      simp only [exact_pod_count_above, exact_pod_default_tol]
      simp [exactPod]
  · rfl

theorem exact_pod_rank_sym {eT : Type} (X : Externals eT) (eps : ℚ) (A : Mat eT) (tol : ℚ) :
    Pod.rank_sym (exactPod eps) X.toPod A tol = rank_sym X eps A tol := by
  have hr : X.toPod.eig_sym A = X.eig_sym A := rfl
  unfold Pod.rank_sym rank_sym
  rw [hr]
  cases hv : X.eig_sym A with
  | none => rfl
  | some v =>
    simp only [exact_pod_count_above, exact_pod_default_tol]
    simp [exactPod]

/-- In exact arithmetic the embedding of `rank` over an arbitrary pod type is
the embedding of `rank` over `ℚ`. -/
theorem exact_pod_rank {eT : Type} [Inhabited eT] [DecidableEq eT] [Zero eT]
    (E : ElemOps eT) (X : Externals eT) (eps : ℚ) (is_op_diagmat : Bool) (A : Mat eT)
    (tol : ℚ) :
    Pod.rank (exactPod eps) E.toPod X.toPod is_op_diagmat A tol
      = rank E X eps is_op_diagmat A tol := by
  have hr : X.toPod.svd_dc A = X.svd_dc A := rfl
  have hc : E.toPod.is_cx = E.is_cx := rfl
  have hj : E.toPod.conj = E.conj := rfl
  unfold Pod.rank rank
  rw [hr, hc, hj, exact_pod_rank_diagmat, exact_pod_rank_sym]
  cases hs : X.svd_dc A with
  | none => rfl
  | some s =>
    simp only [exact_pod_count_above, exact_pod_default_tol]
    simp [exactPod]

end Arma
